import Mathlib

/-!
Verification of the Cithun permission library (ArcletProject/Cithun).

This file gives a shallow embedding, in Lean 4, of the parts of the library
that the specification's claims are about:

* the permission bitmask and its chmod-style expression parsing
  (`src/arclet/cithun/model.py`, `Permission.parse` and `Permission._missing_`);
* the store: resources (`define`, `get_resource_chain`, glob/predicate
  matching), users/roles, ACL entries (`assign`, `depend`, `get_primary_acl`,
  `iter_acls_for_resource`) from `src/arclet/cithun/store.py`;
* the evaluator: `expand_roles`, `_calc_permissions_for_subject`,
  `_check_acl_dependencies`, `_get_effective_permissions_for_subject` and
  `get_effective_permissions` from `src/arclet/cithun/service.py`, together
  with the strategy chain of `src/arclet/cithun/strategy.py`;
* the executor: `_get_parent_and_self`, `_ensure_resource_for_set`,
  `_apply_chmod`, `suget`, `get`, `suset` and `set` from
  `src/arclet/cithun/function.py`.

Modelling conventions:

* Permission masks are natural numbers.  Python's `IntFlag` complement
  (`~deny`) is the complement restricted to the three defined bits, which is
  `7 ^^^ (deny &&& 7)` here.
* Python dictionaries become insertion-ordered association lists; in-place
  mutation of an `AclEntry` that lives in the store becomes replacement of
  the corresponding list element.
* Raised exceptions become `Except` errors.  Executor operations that mutate
  the store return the (possibly partially mutated) store together with an
  optional error, matching the fact that a Python exception thrown in the
  middle of a loop leaves earlier mutations in place.
* The recursive evaluation of ACL dependencies is made total with an
  explicit fuel parameter; `EvalError.outOfFuel` is the (never intended)
  out-of-fuel result.  Fuel is consumed exactly once per nested
  `_calc_permissions_for_subject` activation.
* The `permission_lookup` callback handed to strategies by the source is not
  modelled: no claim exercises it, and no strategy used in this file needs
  it.  A strategy here is a pure function of user, resource, context and the
  running mask, exactly the rest of the source signature.
-/

namespace Cithun

/-! ## Permission bitmask (`model.py`) -/

/-- `Permission.AVAILABLE` (`a`). -/
def AVAILABLE : Nat := 1

/-- `Permission.MODIFY` (`m`). -/
def MODIFY : Nat := 2

/-- `Permission.VISIT` (`v`). -/
def VISIT : Nat := 4

/-- Python `IntFlag` complement: inversion restricted to the three defined
bits, `7 & ~m`. -/
def pnot (m : Nat) : Nat := 7 ^^^ (m &&& 7)

/-- The per-node deny step of the evaluator:
`if node_deny: effective_mask &= ~node_deny`. -/
def applyDeny (eff deny : Nat) : Nat := if deny ≠ 0 then eff &&& pnot deny else eff

/-- Subject kinds (`SubjectType`). -/
inductive SubjectType where
  | USER
  | ROLE
deriving DecidableEq, Repr

instance : BEq SubjectType := ⟨fun a b => decide (a = b)⟩

instance : LawfulBEq SubjectType where
  rfl := by intro a; simp [BEq.beq]
  eq_of_beq := by intro a b h; simpa [BEq.beq] using h

/-- Resource inheritance modes (`InheritMode`). -/
inductive InheritMode where
  | INHERIT
  | MERGE
  | OVERRIDE
deriving DecidableEq, Repr

/-- A resource node (`ResourceNode`). -/
structure ResourceNode where
  id : String
  name : String
  parent_id : Option String := none
  inherit_mode : InheritMode := .MERGE
  type_ : String := "GENERIC"
deriving DecidableEq, Repr

/-- A role (`Role`). -/
structure Role where
  id : String
  name : String
  parent_role_ids : List String := []
deriving DecidableEq, Repr

/-- A user (`User`). -/
structure User where
  id : String
  name : String
  role_ids : List String := []
deriving DecidableEq, Repr

/-- An ACL dependency (`AclDependency`). -/
structure AclDependency where
  subject_type : SubjectType
  subject_id : String
  resource_id : String
  required_mask : Nat
deriving DecidableEq, Repr

/-- An ACL entry (`AclEntry`). -/
structure AclEntry where
  subject_type : SubjectType
  subject_id : String
  resource_id : String
  allow_mask : Nat
  deny_mask : Nat := 0
  dependencies : List AclDependency := []
deriving DecidableEq, Repr

/-! ## `Permission.parse` (`model.py`)

`Permission.parse` strips and lower-cases the expression; a single-character
expression is fed directly to the `Permission` constructor (`int(expr)` for a
digit, the character itself otherwise, handled by `Permission._missing_`);
longer expressions must fully match the regular expression
`(?P<target>[ad])?(?P<op>[=+-])?(?P<flags>(?:[*0-7]|[vmarwx]+))`. -/

/-- ASCII whitespace test used to model Python `str.strip()`. -/
def isWs (c : Char) : Bool := c = ' ' ∨ c = '\t' ∨ c = '\n' ∨ c = '\r'

/-- Strip leading and trailing whitespace from a character list. -/
def trimWs (cs : List Char) : List Char :=
  ((cs.dropWhile isWs).reverse.dropWhile isWs).reverse

/-- The normalisation `expr.strip().lower()` as a character list. -/
def normalizeExpr (s : String) : List Char := (trimWs s.data).map Char.toLower

/-- The single-character mask table of `Permission._missing_` (on a
lower-cased character): `a`/`x` ↦ AVAILABLE, `m`/`w` ↦ MODIFY, `v`/`r` ↦
VISIT, `*` ↦ all three, `-` ↦ nothing. -/
def charBit (c : Char) : Option Nat :=
  if c = 'a' ∨ c = 'x' then some AVAILABLE
  else if c = 'm' ∨ c = 'w' then some MODIFY
  else if c = 'v' ∨ c = 'r' then some VISIT
  else if c = '*' then some 7
  else if c = '-' then some 0
  else none

/-- `Permission._missing_` on a string: fold `charBit` over the characters,
failing on the first invalid one. -/
def strMask : List Char → Except String Nat
  | [] => .ok 0
  | c :: rest =>
    match charBit c with
    | none => .error "Invalid permission character"
    | some b => (strMask rest).map (b ||| ·)

/-- Is `c` one of the glyph-class characters `[vmarwx]` of the parse regex? -/
def isVmarwx (c : Char) : Bool :=
  c = 'v' ∨ c = 'm' ∨ c = 'a' ∨ c = 'r' ∨ c = 'w' ∨ c = 'x'

/-- Bit of a single `[vmarwx]` glyph. -/
def letterBit (c : Char) : Nat :=
  if c = 'a' ∨ c = 'x' then AVAILABLE
  else if c = 'm' ∨ c = 'w' then MODIFY
  else VISIT

/-- The `flags` group `(?:[*0-7]|[vmarwx]+)` of the parse regex, together
with the mask the source computes from the matched text
(`int(flags_str)` when it is a digit, `Permission(flags_str)` otherwise). -/
def flagsVal : List Char → Option Nat
  | [c] =>
    if c = '*' then some 7
    else if '0' ≤ c ∧ c ≤ '7' then some (c.toNat - 48)
    else if isVmarwx c then some (letterBit c) else none
  | [] => none
  | cs =>
    if cs.all isVmarwx then some (cs.foldl (fun a c => a ||| letterBit c) 0) else none

/-- Is `c` an `op` character `[=+-]`? -/
def isOpChar (c : Char) : Bool := c = '=' ∨ c = '+' ∨ c = '-'

/-- The parse regex with target and op both left out: `op` must then match
at the very start, or the whole expression is the `flags` group. -/
def matchNoTarget (cs : List Char) : Option (Bool × Char × Nat) :=
  match cs with
  | c1 :: rest1 =>
    if isOpChar c1 then
      match flagsVal rest1 with
      | some m => some (false, c1, m)
      | none =>
        match flagsVal cs with
        | some m => some (false, '=', m)
        | none => none
    else
      match flagsVal cs with
      | some m => some (false, '=', m)
      | none => none
  | [] => none

/-- Full match of `([ad])?([=+-])?((?:[*0-7]|[vmarwx]+))` with the regex
engine's backtracking order (optional groups prefer to match), returning
`(deny, op, mask)` with the source's defaults `target='a'`, `op='='`. -/
def matchExpr (cs : List Char) : Option (Bool × Char × Nat) :=
  match cs with
  | c1 :: rest1 =>
    if c1 = 'a' ∨ c1 = 'd' then
      let deny : Bool := c1 == 'd'
      match rest1 with
      | c2 :: rest2 =>
        if isOpChar c2 then
          match flagsVal rest2 with
          | some m => some (deny, c2, m)
          | none =>
            match flagsVal rest1 with
            | some m => some (deny, '=', m)
            | none => matchNoTarget cs
        else
          match flagsVal rest1 with
          | some m => some (deny, '=', m)
          | none => matchNoTarget cs
      | [] => matchNoTarget cs
    else matchNoTarget cs
  | [] => none

/-- `Permission.parse`: returns `(mask, op, deny)` or the `ValueError`
message kind the source raises. -/
def parsePerm (s : String) : Except String (Nat × Char × Bool) :=
  match normalizeExpr s with
  | [] => .error "Empty permission expression"
  | [c] =>
    if c.isDigit then .ok (c.toNat - 48, '=', false)
    else
      match strMask [c] with
      | .error e => .error e
      | .ok m => .ok (m, '=', false)
  | cs =>
    match matchExpr cs with
    | none => .error "Invalid permission expression"
    | some (deny, op, m) => .ok (m, op, deny)

/-! Reference definitions written from the specification's grammar
(`expr := [target][op]flags`, `flags := digit(0-7) | '*' | [vmarwx-]+`),
used to compare the claim's grammar with the source parser. -/

/-- The spec's `flags` production: a digit `0-7`, `*`, or a non-empty
sequence over `v m a r w x -` (with `-` contributing no bit). -/
def specFlagsVal : List Char → Option Nat
  | [] => none
  | cs =>
    match cs with
    | [c] =>
      if '0' ≤ c ∧ c ≤ '7' then some (c.toNat - 48)
      else if c = '*' then some 7
      else none
    | _ => none
  |>.orElse fun _ =>
    if cs.all (fun c => isVmarwx c ∨ c = '-') then
      some (cs.foldl (fun a c => if c = '-' then a else a ||| letterBit c) 0)
    else none

/-- The spec grammar `[target][op]flags` as a recogniser returning
`(mask, op, deny)`, target preferred over flags where both could apply. -/
def specParse (s : String) : Option (Nat × Char × Bool) :=
  let core : List Char → Option (Nat × Char × Bool) := fun cs =>
    match cs with
    | c1 :: rest1 =>
      let withTarget :=
        if c1 = 'a' ∨ c1 = 'd' then
          let deny : Bool := c1 == 'd'
          match rest1 with
          | c2 :: rest2 =>
            if isOpChar c2 then
              (specFlagsVal rest2).map (fun m => (m, c2, deny))
                |>.orElse fun _ => (specFlagsVal rest1).map (fun m => (m, '=', deny))
            else (specFlagsVal rest1).map (fun m => (m, '=', deny))
          | [] => none
        else none
      withTarget.orElse fun _ =>
        if isOpChar c1 then
          (specFlagsVal rest1).map (fun m => (m, c1, false))
            |>.orElse fun _ => (specFlagsVal cs).map (fun m => (m, '=', false))
        else (specFlagsVal cs).map (fun m => (m, '=', false))
    | [] => none
  core (normalizeExpr s)

/-! ## Configuration and paths

Modelled from the spec: `config.py` is not part of the sources given, and
§6.4 of the specification fixes `NODE_SEPARATOR` to the one-character string
`"."` by default.  All path handling below uses that separator. -/

/-- Separator test (`Config.NODE_SEPARATOR`, default `"."`). -/
def isSep (c : Char) : Bool := c = '.'

/-- Python `path.strip(Config.NODE_SEPARATOR)`. -/
def stripSep (s : String) : String :=
  ⟨((s.data.dropWhile isSep).reverse.dropWhile isSep).reverse⟩

/-- Does the path contain one of the glob trigger characters `* ? [`? -/
def hasGlobChar (s : String) : Bool := s.data.any (fun c => c = '*' ∨ c = '?' ∨ c = '[')

/-- `str.split` on the separator, at character-list level. -/
def splitSegs : List Char → List (List Char)
  | [] => [[]]
  | c :: rest =>
    let r := splitSegs rest
    if c = '.' then [] :: r
    else
      match r with
      | [] => [[c]]
      | seg :: segs => (c :: seg) :: segs

/-- The non-empty segments of a path:
`[p for p in path.strip(sep).split(sep) if p]`. -/
def pathParts (s : String) : List String :=
  ((splitSegs (stripSep s).data).map (fun l => (⟨l⟩ : String))).filter (· ≠ "")

/-- Child id construction in `define`:
`f"{parent}{sep}{part}"` when a parent id exists, else the part itself. -/
def childId : Option String → String → String
  | none, part => part
  | some pid, part => pid ++ "." ++ part

/-! ## The store (`store.py`) -/

/-- `BaseStore`: insertion-ordered dictionaries become association lists;
`acls` is a plain list, as in the source.  Tracks are omitted: they are
evaluation-neutral and no claim mentions them. -/
structure Store where
  resources : List (String × ResourceNode) := []
  users : List (String × User) := []
  roles : List (String × Role) := []
  acls : List AclEntry := []

/-- Dictionary write `d[k] = v`: replace in place if the key exists,
append otherwise. -/
def dictSet {α : Type} (l : List (String × α)) (k : String) (v : α) :
    List (String × α) :=
  if (l.lookup k).isSome then l.map (fun p => if p.1 = k then (k, v) else p)
  else l ++ [(k, v)]

/-- Write a resource under an explicit key (object creation in
`_add_resource`, and in-place mutation of a node already in the dict). -/
def putResource (st : Store) (k : String) (n : ResourceNode) : Store :=
  { st with resources := dictSet st.resources k n }

/-- The segment walk of `BaseStore.define`. -/
def defineGo (mode : Option InheritMode) (ty : String) :
    Store → Option String → String → List String → Store × ResourceNode
  | st, parentId, part, rest =>
    let currentId := childId parentId part
    let isLast := rest.isEmpty
    let upd : Store × ResourceNode :=
      match st.resources.lookup currentId with
      | none =>
        let node : ResourceNode :=
          { id := currentId, name := part, parent_id := parentId,
            inherit_mode := if isLast then mode.getD .OVERRIDE else .MERGE,
            type_ := if isLast then ty else "DIR" }
        (putResource st currentId node, node)
      | some node =>
        if isLast then
          let node := { node with inherit_mode := mode.getD node.inherit_mode, type_ := ty }
          (putResource st currentId node, node)
        else
          let node := { node with inherit_mode := .MERGE, type_ := "DIR" }
          (putResource st currentId node, node)
    match rest with
    | [] => upd
    | q :: qs => defineGo mode ty upd.1 (some currentId) q qs

/-- `BaseStore.define(path, inherit_mode, type_)`; raises `ValueError` on an
effectively empty path. -/
def define (st : Store) (path : String) (mode : Option InheritMode) (ty : String) :
    Except String (Store × ResourceNode) :=
  match pathParts path with
  | [] => .error "path must not be empty"
  | p :: ps => .ok (defineGo mode ty st none p ps)

/-- The parent-following loop of `get_resource_chain`.  The source's `while`
loop would not terminate on a cyclic `parent_id` chain; the fuel (number of
resources plus one) is enough for every acyclic store, which is the only
kind `define` produces. -/
def chainGo (st : Store) : Nat → Option ResourceNode → List ResourceNode
  | _, none => []
  | 0, some _ => []
  | fuel + 1, some cur =>
    cur ::
      (match cur.parent_id with
       | none => []
       | some pid => if pid = "" then [] else chainGo st fuel (st.resources.lookup pid))

/-- `BaseStore.get_resource_chain(rid)`: `[self, parent, …, root]`. -/
def getResourceChain (st : Store) (rid : String) : List ResourceNode :=
  chainGo st (st.resources.length + 1) (st.resources.lookup rid)

/-! Shell-style matching (`fnmatch.fnmatch` as used by `glob_resources`):
`*`, `?` and `[...]` (with `!` negation, a leading literal `]`, and
character ranges). -/

/-- Split a bracket body at the first closing `]`. -/
def takeUntilRB : List Char → Option (List Char × List Char)
  | [] => none
  | c :: t =>
    if c = ']' then some ([], t)
    else (takeUntilRB t).map (fun p => (c :: p.1, p.2))

/-- Body of `splitBracket` once an optional leading `!` has been consumed:
a `]` in first position is a literal member. -/
def splitBracketBody (neg : Bool) (t : List Char) : Option (Bool × List Char × List Char) :=
  match t with
  | [] => none
  | c :: t2 =>
    if c = ']' then (takeUntilRB t2).map (fun p => (neg, ']' :: p.1, p.2))
    else (takeUntilRB (c :: t2)).map (fun p => (neg, p.1, p.2))

/-- Parse the inside of a `[...]` pattern group: negation flag, body, and
rest of the pattern after the `]`; `none` when there is no closing `]`. -/
def splitBracket : List Char → Option (Bool × List Char × List Char)
  | [] => none
  | c :: t =>
    if c = '!' then splitBracketBody true t else splitBracketBody false (c :: t)

/-- Membership of a character in a bracket body, with `a-b` ranges. -/
def bracketMember : List Char → Char → Bool
  | a :: '-' :: b :: rest, c => (a ≤ c ∧ c ≤ b) ∨ bracketMember rest c
  | a :: rest, c => c = a ∨ bracketMember rest c
  | [], _ => false

theorem takeUntilRB_length : ∀ cs b r, takeUntilRB cs = some (b, r) → r.length < cs.length := by
  intro cs
  induction cs with
  | nil => intro b r h; simp [takeUntilRB] at h
  | cons c t ih =>
    intro b r h
    rw [takeUntilRB] at h
    split at h
    · simp at h
      simp [← h.2]
    · match hr : takeUntilRB t with
      | none => rw [hr] at h; simp at h
      | some (b', r') =>
        rw [hr] at h
        simp at h
        have := ih b' r' hr
        simp [← h.2]
        omega

theorem splitBracketBody_length (neg : Bool) (t : List Char) (n : Bool) (b r : List Char)
    (h : splitBracketBody neg t = some (n, b, r)) : r.length < t.length := by
  rcases t with _ | ⟨c, t2⟩
  · simp [splitBracketBody] at h
  · simp only [splitBracketBody] at h
    split at h
    · match hr : takeUntilRB t2 with
      | none => rw [hr] at h; simp at h
      | some (b', r') =>
        rw [hr] at h
        simp at h
        have := takeUntilRB_length t2 b' r' hr
        simp [← h.2.2]
        omega
    · match hr : takeUntilRB (c :: t2) with
      | none => rw [hr] at h; simp at h
      | some (b', r') =>
        rw [hr] at h
        simp at h
        have := takeUntilRB_length (c :: t2) b' r' hr
        rw [← h.2.2]
        simpa using this

theorem splitBracket_length (cs : List Char) (n : Bool) (b r : List Char)
    (h : splitBracket cs = some (n, b, r)) : r.length < cs.length := by
  rcases cs with _ | ⟨c, t⟩
  · simp [splitBracket] at h
  · rw [splitBracket] at h
    split at h
    · have := splitBracketBody_length true t n b r h
      simp
      omega
    · have := splitBracketBody_length false (c :: t) n b r h
      simpa using this

/-- `fnmatch`-style pattern match of a pattern against a string. -/
def globMatch : List Char → List Char → Bool
  | [], s => s.isEmpty
  | '*' :: ps, s =>
    globMatch ps s ||
      (match s with
       | [] => false
       | _ :: s' => globMatch ('*' :: ps) s')
  | '?' :: ps, s =>
    (match s with
     | [] => false
     | _ :: s' => globMatch ps s')
  | '[' :: ps, s =>
    match hb : splitBracket ps with
    | none =>
      (match s with
       | [] => false
       | c' :: s' => decide ('[' = c') && globMatch ps s')
    | some (neg, body, rest) =>
      (match s with
       | [] => false
       | c' :: s' => (bracketMember body c' != neg) && globMatch rest s')
  | c :: ps, s =>
    (match s with
     | [] => false
     | c' :: s' => decide (c = c') && globMatch ps s')
termination_by p s => s.length + p.length
decreasing_by
  all_goals simp_arith
  have := splitBracket_length _ _ _ _ hb
  omega

/-- `BaseStore.match_resources(pattern)`: predicate filter over the stripped
resource ids, in insertion order. -/
def matchResources (st : Store) (f : String → Bool) : List ResourceNode :=
  (st.resources.map (·.2)).filter (fun res => f (stripSep res.id))

/-- `BaseStore.glob_resources(pattern)`. -/
def globResources (st : Store) (pattern : String) : List ResourceNode :=
  let pat := stripSep pattern
  (st.resources.map (·.2)).filter (fun res => globMatch pat.data (stripSep res.id).data)

/-- A resource selector: a path string, or a predicate (covering both the
callable and compiled-`Pattern` forms of the source, which are used only
through `match_resources`). -/
inductive ResourceSel where
  | path (s : String)
  | pred (f : String → Bool)

/-- Does this entry carry the given `(subject_kind, subject_id, resource_id)`
key? -/
def aclKeyMatch (sty : SubjectType) (sid rid : String) (a : AclEntry) : Bool :=
  a.subject_type == sty && a.subject_id == sid && a.resource_id == rid

/-- `BaseStore.get_primary_acl`: the first entry, in insertion order, with
the given key. -/
def getPrimaryAcl (st : Store) (sty : SubjectType) (sid rid : String) : Option AclEntry :=
  st.acls.find? (aclKeyMatch sty sid rid)

/-- `BaseStore.iter_acls_for_resource`. -/
def aclsForResource (st : Store) (rid : String) : List AclEntry :=
  st.acls.filter (fun a => a.resource_id == rid)

/-- `BaseStore._add_acl`. -/
def addAcl (st : Store) (a : AclEntry) : Store := { st with acls := st.acls ++ [a] }

/-- A fresh ACL entry as `assign` builds it. -/
def mkAcl (sty : SubjectType) (sid rid : String) (allow deny : Nat) : AclEntry :=
  { subject_type := sty, subject_id := sid, resource_id := rid,
    allow_mask := allow, deny_mask := deny, dependencies := [] }

/-- The matched-resources loop of `assign`: skip resources that already have
a primary entry for the subject, append a fresh entry otherwise. -/
def assignMatched (sty : SubjectType) (sid : String) (allow deny : Nat) :
    Store → List ResourceNode → Store
  | st, [] => st
  | st, res :: rest =>
    if (getPrimaryAcl st sty sid res.id).isSome then
      assignMatched sty sid allow deny st rest
    else
      assignMatched sty sid allow deny (addAcl st (mkAcl sty sid res.id allow deny)) rest

/-- `BaseStore.assign`: a plain path is defined and gets an entry appended
unconditionally; a glob path or predicate goes through the matched loop. -/
def assign (st : Store) (sty : SubjectType) (sid : String) (sel : ResourceSel)
    (allow deny : Nat) : Except String Store :=
  match sel with
  | .path p =>
    let p := stripSep p
    if hasGlobChar p then .ok (assignMatched sty sid allow deny st (globResources st p))
    else
      match define st p none "GENERIC" with
      | .error e => .error e
      | .ok (st, res) => .ok (addAcl st (mkAcl sty sid res.id allow deny))
  | .pred f => .ok (assignMatched sty sid allow deny st (matchResources st f))

/-- In-place append of a dependency onto the first entry with the key
(`target_acl.dependencies.append(dep)` in `depend`). -/
def appendDepToPrimary (sty : SubjectType) (sid rid : String) (dep : AclDependency) :
    List AclEntry → List AclEntry
  | [] => []
  | a :: rest =>
    if aclKeyMatch sty sid rid a then
      { a with dependencies := a.dependencies ++ [dep] } :: rest
    else a :: appendDepToPrimary sty sid rid dep rest

/-- `BaseStore.depend`. -/
def depend (st : Store) (tsty : SubjectType) (tsid trid : String)
    (dsty : SubjectType) (dsid : String) (depPath : String) (required : Nat) :
    Except String Store :=
  match getPrimaryAcl st tsty tsid trid with
  | none => .error "Target ACL does not exist."
  | some _ =>
    match define st depPath none "GENERIC" with
    | .error e => .error e
    | .ok (st, depRes) =>
      .ok { st with
            acls := appendDepToPrimary tsty tsid trid
              ⟨dsty, dsid, depRes.id, required⟩ st.acls }

/-- In-place write of `primary_acl.allow_mask = new_mask`: rewrite the first
entry with the key. -/
def setPrimaryAllow (sty : SubjectType) (sid rid : String) (m : Nat) :
    List AclEntry → List AclEntry
  | [] => []
  | a :: rest =>
    if aclKeyMatch sty sid rid a then { a with allow_mask := m } :: rest
    else a :: setPrimaryAllow sty sid rid m rest

/-! ## Role expansion and the evaluator (`service.py`) -/

/-- Depth-first visit of one role id (`dfs` inside `expand_roles`); the
state is `(visited, result)`.  The fuel bounds the recursion depth; the
source recursion is depth-bounded by the visited set, and
`roles.length + 1` fuel is enough since only ids present in `roles` recurse
further. -/
def dfsRole (roles : List (String × Role)) :
    Nat → String → List String × List String → List String × List String
  | 0, _, acc => acc
  | fuel + 1, rid, (visited, result) =>
    if visited.contains rid then (visited, result)
    else
      let visited := rid :: visited
      match roles.lookup rid with
      | none => (visited, result)
      | some role =>
        role.parent_role_ids.foldl (fun acc pr => dfsRole roles fuel pr acc)
          (visited, rid :: result)

/-- `expand_roles(role_ids, roles)`: all transitively inherited role ids.
The source returns a set; only membership in the result is ever used. -/
def expandRoles (roles : List (String × Role)) (role_ids : List String) : List String :=
  (role_ids.foldl (fun acc rid => dfsRole roles (roles.length + 1) rid acc) ([], [])).2

/-- The `(kind, subject_id, resource_id)` cache/visited key. -/
abbrev EvalKey := SubjectType × String × String

/-- The per-evaluation memo cache, an insertion-ordered dictionary. -/
abbrev Cache := List (EvalKey × Nat)

/-- Errors the evaluator can raise: `DependencyCycleError` with its chain of
keys, a `KeyError` from a store lookup, or fuel exhaustion (an artefact of
the embedding, never the intended result). -/
inductive EvalError where
  | outOfFuel
  | cycle (chain : List EvalKey)
  | notFound (id : String)
deriving DecidableEq, Repr

/-- A strategy: consumes and returns the running mask (the
`permission_lookup` callback is omitted, see the header). -/
def Strategy (χ : Type) : Type := User → ResourceNode → χ → Nat → Nat

/-- `PermissionEngine.apply_strategies`: fold the registered strategies, in
registration order, over the mask. -/
def applyStrategies {χ : Type} (strats : List (Strategy χ)) (u : User)
    (res : ResourceNode) (ctx : χ) (mask : Nat) : Nat :=
  strats.foldl (fun m s => s u res ctx m) mask

/-- `storage.get_user(uid)`, raising `KeyError` when absent. -/
def getUserE (st : Store) (uid : String) : Except EvalError User :=
  match st.users.lookup uid with
  | none => .error (.notFound uid)
  | some u => .ok u

/-- The relevant-subject set of `_calc_permissions_for_subject`: the subject
itself (for a USER, via the stored `user.id`) plus all transitively
inherited roles. -/
def relevantSubjects (st : Store) : SubjectType → String → Except EvalError (List (SubjectType × String))
  | .USER, sid =>
    match st.users.lookup sid with
    | none => .error (.notFound sid)
    | some u =>
      .ok ((SubjectType.USER, u.id) ::
        (expandRoles st.roles u.role_ids).map (fun r => (SubjectType.ROLE, r)))
  | .ROLE, sid =>
    .ok ((expandRoles st.roles [sid]).map (fun r => (SubjectType.ROLE, r)))

/-- `_check_acl_dependencies`: every dependency's effective mask (computed
by the supplied `evalDep`, which the caller instantiates with
`_get_effective_permissions_for_subject`) must contain its required mask;
the first unmet dependency stops the walk with `false`. -/
def checkAclDependencies (st : Store)
    (evalDep : SubjectType → String → ResourceNode → Cache → Except EvalError (Nat × Cache)) :
    List AclDependency → Cache → Except EvalError (Bool × Cache)
  | [], cache => .ok (true, cache)
  | dep :: rest, cache =>
    match st.resources.lookup dep.resource_id with
    | none => .error (.notFound dep.resource_id)
    | some dres =>
      match evalDep dep.subject_type dep.subject_id dres cache with
      | .error e => .error e
      | .ok (m, cache) =>
        if m &&& dep.required_mask = dep.required_mask then
          checkAclDependencies st evalDep rest cache
        else .ok (false, cache)

/-- The inner ACL loop of `_calc_permissions_for_subject` at one node:
union the allow and deny masks of the relevant entries whose dependencies
hold.  When the check fails the source calls `_check_acl_dependencies` a
second time (discarding the result) before skipping the entry; that call is
kept for fidelity. -/
def foldNodeAcls (relevant : List (SubjectType × String))
    (check : List AclDependency → Cache → Except EvalError (Bool × Cache)) :
    List AclEntry → Nat → Nat → Cache → Except EvalError (Nat × Nat × Cache)
  | [], nodeAllow, nodeDeny, cache => .ok (nodeAllow, nodeDeny, cache)
  | acl :: rest, nodeAllow, nodeDeny, cache =>
    if relevant.contains (acl.subject_type, acl.subject_id) then
      match check acl.dependencies cache with
      | .error e => .error e
      | .ok (ok, cache) =>
        if ok then
          foldNodeAcls relevant check rest (nodeAllow ||| acl.allow_mask)
            (nodeDeny ||| acl.deny_mask) cache
        else
          match check acl.dependencies cache with
          | .error e => .error e
          | .ok (_, cache) => foldNodeAcls relevant check rest nodeAllow nodeDeny cache
    else foldNodeAcls relevant check rest nodeAllow nodeDeny cache

/-- The root-to-leaf fold of `_calc_permissions_for_subject`: per node,
combine the unioned allow mask according to the node's inherit mode
(`MERGE` unions, `OVERRIDE` replaces, `INHERIT` keeps), then clear the
node's deny bits. -/
def foldChainNodes (st : Store) (relevant : List (SubjectType × String))
    (check : List AclDependency → Cache → Except EvalError (Bool × Cache)) :
    List ResourceNode → Nat → Cache → Except EvalError (Nat × Cache)
  | [], eff, cache => .ok (eff, cache)
  | node :: rest, eff, cache =>
    match foldNodeAcls relevant check (aclsForResource st node.id) 0 0 cache with
    | .error e => .error e
    | .ok (nodeAllow, nodeDeny, cache) =>
      let eff :=
        match node.inherit_mode with
        | .MERGE => eff ||| nodeAllow
        | .OVERRIDE => nodeAllow
        | .INHERIT => eff
      foldChainNodes st relevant check rest (applyDeny eff nodeDeny) cache

/-- `_calc_permissions_for_subject`: memo-cache lookup, visited-stack cycle
detection, then the root-to-leaf fold over the resource chain.  Dependencies
are evaluated through `_get_effective_permissions_for_subject` (inlined
here as `evalDep`, compare `getEffectiveForSubject` below), which applies
the strategy chain when the dependency subject is a USER. -/
def calcPermissionsForSubject {χ : Type} (st : Store) (strats : List (Strategy χ)) :
    Nat → SubjectType → String → ResourceNode → χ → List EvalKey → Cache →
      Except EvalError (Nat × Cache)
  | 0, _, _, _, _, _, _ => .error .outOfFuel
  | fuel + 1, sty, sid, res, ctx, visited, cache =>
    let key : EvalKey := (sty, sid, res.id)
    match cache.lookup key with
    | some v => .ok (v, cache)
    | none =>
      if visited.contains key then
        .error (.cycle (visited.drop (visited.findIdx (· == key)) ++ [key]))
      else
        let visited := visited ++ [key]
        match relevantSubjects st sty sid with
        | .error e => .error e
        | .ok relevant =>
          let chain := (getResourceChain st res.id).reverse
          let evalDep : SubjectType → String → ResourceNode → Cache →
              Except EvalError (Nat × Cache) := fun dsty dsid dres dcache =>
            match calcPermissionsForSubject st strats fuel dsty dsid dres ctx visited dcache with
            | .error e => .error e
            | .ok (m, dcache) =>
              match dsty with
              | .USER =>
                match getUserE st dsid with
                | .error e => .error e
                | .ok u => .ok (applyStrategies strats u dres ctx m, dcache)
              | .ROLE => .ok (m, dcache)
          match foldChainNodes st relevant (checkAclDependencies st evalDep) chain 0 cache with
          | .error e => .error e
          | .ok (eff, cache) => .ok (eff, cache ++ [(key, eff)])

/-- `_get_effective_permissions_for_subject`: the static computation, then
the strategy chain — applied only when the subject is a USER. -/
def getEffectiveForSubject {χ : Type} (st : Store) (strats : List (Strategy χ))
    (fuel : Nat) (sty : SubjectType) (sid : String) (res : ResourceNode) (ctx : χ)
    (visited : List EvalKey) (cache : Cache) : Except EvalError (Nat × Cache) :=
  match calcPermissionsForSubject st strats fuel sty sid res ctx visited cache with
  | .error e => .error e
  | .ok (m, cache) =>
    match sty with
    | .USER =>
      match getUserE st sid with
      | .error e => .error e
      | .ok u => .ok (applyStrategies strats u res ctx m, cache)
    | .ROLE => .ok (m, cache)

/-- `PermissionService.get_effective_permissions(user, resource_id, ctx)`:
resolve the resource, then evaluate the USER subject with a fresh visited
stack and cache. -/
def getEffectivePermissionsE {χ : Type} (st : Store) (strats : List (Strategy χ))
    (fuel : Nat) (uid rid : String) (ctx : χ) : Except EvalError Nat :=
  match st.resources.lookup rid with
  | none => .error (.notFound rid)
  | some res =>
    match getEffectiveForSubject st strats fuel .USER uid res ctx [] [] with
    | .error e => .error e
    | .ok (m, _) => .ok m

/-! ## The executor (`function.py`) -/

/-- Executor-level errors: `PermissionNotFoundError`, `PermissionDeniedError`,
`ValueError`, or an evaluator error propagating through. -/
inductive ExecError where
  | notFound (id : String)
  | permissionDenied
  | valueFail (msg : String)
  | evalFail (e : EvalError)
deriving DecidableEq, Repr

/-- Python truthiness of an optional id string (`None` and `""` are falsy). -/
def pidTruthy : Option String → Bool
  | none => false
  | some pid => pid ≠ ""

/-- `path.rpartition(sep)`: the part before the last separator, when the
path contains one. -/
def parentIdOf (p : String) : Option String :=
  if p.data.contains '.' then
    some ⟨((p.data.reverse.dropWhile (· ≠ '.')).drop 1).reverse⟩
  else none

/-- `PermissionExecutor._get_parent_and_self`. -/
def getParentAndSelf (st : Store) (resource_path : String) (missingOk : Bool) :
    Except ExecError (Option ResourceNode × Option ResourceNode) :=
  let path := stripSep resource_path
  if path = "" then
    match st.resources.lookup "root" with
    | none => if missingOk then .ok (none, none) else .error (.notFound "root")
    | some root => .ok (none, some root)
  else
    let selfNode := st.resources.lookup path
    let parentId := parentIdOf path
    let parentNode :=
      match parentId with
      | none => none
      | some pid => if pid = "" then none else st.resources.lookup pid
    if parentNode.isNone ∧ pidTruthy parentId ∧ ¬missingOk then
      .error (.notFound (parentId.getD ""))
    else if selfNode.isNone ∧ ¬missingOk then .error (.notFound path)
    else .ok (parentNode, selfNode)

/-- `PermissionExecutor._ensure_resource_for_set`: resolve, and create the
resource (and its missing ancestors) when allowed. -/
def ensureResourceForSet (st : Store) (resource_path : String) (missingOk : Bool) :
    Except ExecError (Store × Option ResourceNode × ResourceNode) :=
  match getParentAndSelf st resource_path missingOk with
  | .error e => .error e
  | .ok (parent, some node) => .ok (st, parent, node)
  | .ok (parent, none) =>
    if ¬missingOk then .error (.notFound resource_path)
    else
      match define st resource_path none "GENERIC" with
      | .error e => .error (.valueFail e)
      | .ok (st, node) => .ok (st, parent, node)

/-- `PermissionExecutor._apply_chmod`: `=` replaces, `+` unions, `-` clears;
anything else is a `ValueError`. -/
def applyChmod (old mask : Nat) (mode : Char) : Except ExecError Nat :=
  if mode = '=' then .ok mask
  else if mode = '+' then .ok (old ||| mask)
  else if mode = '-' then .ok (old ^^^ (old &&& mask))
  else .error (.valueFail "Unsupported chmod mode")

/-- `PermissionExecutor.suget`: resolve the node, then evaluate — the full
`get_effective_permissions` for a user, the static computation for a role.
No gating. -/
def suget {χ : Type} (st : Store) (strats : List (Strategy χ)) (fuel : Nat)
    (sty : SubjectType) (sid : String) (resource_path : String) (missingOk : Bool)
    (ctx : χ) : Except ExecError (Option Nat) :=
  match getParentAndSelf st resource_path missingOk with
  | .error e => .error e
  | .ok (_, none) => .ok none
  | .ok (_, some node) =>
    match sty with
    | .ROLE =>
      match calcPermissionsForSubject st strats fuel .ROLE sid node ctx [] [] with
      | .error e => .error (.evalFail e)
      | .ok (m, _) => .ok (some m)
    | .USER =>
      match getEffectivePermissionsE st strats fuel sid node.id ctx with
      | .error e => .error (.evalFail e)
      | .ok m => .ok (some m)

/-- `PermissionExecutor.get`: resolve, require VISIT and AVAILABLE on an
existing parent for the executor, then require VISIT on the node itself and
return its mask. -/
def getP {χ : Type} (st : Store) (strats : List (Strategy χ)) (fuel : Nat)
    (executor : String) (resource_path : String) (missingOk : Bool) (ctx : χ) :
    Except ExecError (Option Nat) :=
  match getParentAndSelf st resource_path missingOk with
  | .error e => .error e
  | .ok (parent, selfNode) =>
    let afterParent : Except ExecError Unit :=
      match parent with
      | none => .ok ()
      | some par =>
        match getEffectivePermissionsE st strats fuel executor par.id ctx with
        | .error e => .error (.evalFail e)
        | .ok pm =>
          if pm &&& (VISIT ||| AVAILABLE) ≠ VISIT ||| AVAILABLE then .error .permissionDenied
          else .ok ()
    match afterParent with
    | .error e => .error e
    | .ok () =>
      match selfNode with
      | none => .ok none
      | some node =>
        match getEffectivePermissionsE st strats fuel executor node.id ctx with
        | .error e => .error (.evalFail e)
        | .ok sm =>
          if sm &&& VISIT ≠ VISIT then .error .permissionDenied
          else .ok (some sm)

/-- The per-node chmod step shared by `suset` and the tail of `set`:
read the primary entry's allow mask (default 0), apply the op, then write
the primary in place or `assign` a fresh entry. -/
def chmodOnNode (st : Store) (sty : SubjectType) (sid : String) (node : ResourceNode)
    (mask : Nat) (mode : Char) : Store × Option ExecError :=
  let primary := getPrimaryAcl st sty sid node.id
  let old := match primary with | some a => a.allow_mask | none => 0
  match applyChmod old mask mode with
  | .error e => (st, some e)
  | .ok nm =>
    match primary with
    | some _ => ({ st with acls := setPrimaryAllow sty sid node.id nm st.acls }, none)
    | none =>
      match assign st sty sid (.path node.id) nm 0 with
      | .error e => (st, some (.valueFail e))
      | .ok st => (st, none)

/-- The matched-resources loop of `suset`. -/
def susetMatched (sty : SubjectType) (sid : String) (mask : Nat) (mode : Char)
    (missingOk : Bool) : Store → List ResourceNode → Store × Option ExecError
  | st, [] => (st, none)
  | st, node :: rest =>
    if pidTruthy node.parent_id ∧ (st.resources.lookup (node.parent_id.getD "")).isNone then
      if ¬missingOk then (st, some (.notFound (node.parent_id.getD "")))
      else susetMatched sty sid mask mode missingOk st rest
    else
      match chmodOnNode st sty sid node mask mode with
      | (st, some e) => (st, some e)
      | (st, none) => susetMatched sty sid mask mode missingOk st rest

/-- `PermissionExecutor.suset`: root-tier chmod, no gating; the resource is
created when `missing_ok` allows it. -/
def suset (st : Store) (sty : SubjectType) (sid : String) (sel : ResourceSel)
    (mask : Nat) (mode : Char) (missingOk : Bool) : Store × Option ExecError :=
  match sel with
  | .path p0 =>
    let p := stripSep p0
    if hasGlobChar p then susetMatched sty sid mask mode missingOk st (globResources st p)
    else
      match ensureResourceForSet st p missingOk with
      | .error e => (st, some e)
      | .ok (st, _, node) => chmodOnNode st sty sid node mask mode
  | .pred f => susetMatched sty sid mask mode missingOk st (matchResources st f)

/-- The self-gate plus chmod of `set` on one node: silently skip (no store
change) when the executor's mask on the node lacks MODIFY. -/
def setOnNode {χ : Type} (strats : List (Strategy χ)) (fuel : Nat) (executor : String)
    (tsty : SubjectType) (tsid : String) (mask : Nat) (mode : Char) (ctx : χ)
    (st : Store) (node : ResourceNode) : Store × Option ExecError :=
  match getEffectivePermissionsE st strats fuel executor node.id ctx with
  | .error e => (st, some (.evalFail e))
  | .ok sm =>
    if sm &&& MODIFY ≠ MODIFY then (st, none)
    else chmodOnNode st tsty tsid node mask mode

/-- The matched-resources loop of `set`: per node, parent existence, the
executor's VISIT+MODIFY+AVAILABLE on the parent (raising on failure), then
the gated chmod step. -/
def setMatched {χ : Type} (strats : List (Strategy χ)) (fuel : Nat) (executor : String)
    (tsty : SubjectType) (tsid : String) (mask : Nat) (mode : Char) (missingOk : Bool)
    (ctx : χ) : Store → List ResourceNode → Store × Option ExecError
  | st, [] => (st, none)
  | st, node :: rest =>
    let parent :=
      match node.parent_id with
      | none => none
      | some pid => if pid = "" then none else st.resources.lookup pid
    if pidTruthy node.parent_id ∧ parent.isNone then
      if ¬missingOk then (st, some (.notFound (node.parent_id.getD "")))
      else setMatched strats fuel executor tsty tsid mask mode missingOk ctx st rest
    else
      let gate : Store × Option ExecError :=
        match parent with
        | none => (st, none)
        | some par =>
          match getEffectivePermissionsE st strats fuel executor par.id ctx with
          | .error e => (st, some (.evalFail e))
          | .ok pm =>
            if pm &&& (VISIT ||| MODIFY ||| AVAILABLE) ≠ VISIT ||| MODIFY ||| AVAILABLE then
              (st, some .permissionDenied)
            else (st, none)
      match gate with
      | (st, some e) => (st, some e)
      | (st, none) =>
        match setOnNode strats fuel executor tsty tsid mask mode ctx st node with
        | (st, some e) => (st, some e)
        | (st, none) => setMatched strats fuel executor tsty tsid mask mode missingOk ctx st rest

/-- `PermissionExecutor.set`: executor-gated chmod.  On a plain path the
resource is resolved (and created, when `missing_ok`) *before* the gates;
the parent gate requires VISIT+MODIFY+AVAILABLE and raises on failure; the
self gate requires MODIFY and silently skips. -/
def setP {χ : Type} (st : Store) (strats : List (Strategy χ)) (fuel : Nat)
    (executor : String) (tsty : SubjectType) (tsid : String) (sel : ResourceSel)
    (mask : Nat) (mode : Char) (missingOk : Bool) (ctx : χ) : Store × Option ExecError :=
  match sel with
  | .path p0 =>
    let p := stripSep p0
    if hasGlobChar p then
      setMatched strats fuel executor tsty tsid mask mode missingOk ctx st (globResources st p)
    else
      match ensureResourceForSet st p missingOk with
      | .error e => (st, some e)
      | .ok (st, parent, node) =>
        let gate : Option ExecError :=
          match parent with
          | none => none
          | some par =>
            match getEffectivePermissionsE st strats fuel executor par.id ctx with
            | .error e => some (.evalFail e)
            | .ok pm =>
              if pm &&& (VISIT ||| MODIFY ||| AVAILABLE) ≠ VISIT ||| MODIFY ||| AVAILABLE then
                some .permissionDenied
              else none
        match gate with
        | some e => (st, some e)
        | none => setOnNode strats fuel executor tsty tsid mask mode ctx st node
  | .pred f =>
    setMatched strats fuel executor tsty tsid mask mode missingOk ctx st (matchResources st f)

/-! ## Reference definitions from the specification's evaluation pseudocode -/

/-- Union of the allow masks of a list of entries. -/
def unionAllow : List AclEntry → Nat
  | [] => 0
  | a :: l => a.allow_mask ||| unionAllow l

/-- Union of the deny masks of a list of entries. -/
def unionDeny : List AclEntry → Nat
  | [] => 0
  | a :: l => a.deny_mask ||| unionDeny l

/-- The entries at a node that belong to a relevant subject (the ones the
evaluator's inner loop does not skip). -/
def matchingAcls (st : Store) (relevant : List (SubjectType × String)) (nid : String) :
    List AclEntry :=
  (aclsForResource st nid).filter (fun a => relevant.contains (a.subject_type, a.subject_id))

/-- One node of the spec's fold (§4.5): union allow and deny masks of the
matching entries, combine allow per the inherit mode, then clear the deny
bits. -/
def specNodeStep (st : Store) (relevant : List (SubjectType × String))
    (eff : Nat) (node : ResourceNode) : Nat :=
  let M := matchingAcls st relevant node.id
  let combined :=
    match node.inherit_mode with
    | .MERGE => eff ||| unionAllow M
    | .OVERRIDE => unionAllow M
    | .INHERIT => eff
  applyDeny combined (unionDeny M)

/-- The spec's whole evaluation: fold the chain root-to-leaf from 0. -/
def specEffective (st : Store) (relevant : List (SubjectType × String)) (rid : String) : Nat :=
  ((getResourceChain st rid).reverse).foldl (specNodeStep st relevant) 0

/-! ## Fold lemmas -/

theorem foldNodeAcls_eq (relevant : List (SubjectType × String))
    (check : List AclDependency → Cache → Except EvalError (Bool × Cache))
    (h0 : ∀ cache, check [] cache = .ok (true, cache)) :
    ∀ (acls : List AclEntry) (na nd : Nat) (cache : Cache),
      (∀ a ∈ acls, relevant.contains (a.subject_type, a.subject_id) = true →
        a.dependencies = []) →
      foldNodeAcls relevant check acls na nd cache =
        .ok (na ||| unionAllow (acls.filter (fun a => relevant.contains (a.subject_type, a.subject_id))),
             nd ||| unionDeny (acls.filter (fun a => relevant.contains (a.subject_type, a.subject_id))),
             cache) := by
  intro acls
  induction acls with
  | nil => intro na nd cache _; simp [foldNodeAcls, unionAllow, unionDeny]
  | cons a rest ih =>
    intro na nd cache hdeps
    have hrest : ∀ b ∈ rest, relevant.contains (b.subject_type, b.subject_id) = true →
        b.dependencies = [] := fun b hb => hdeps b (List.mem_cons_of_mem _ hb)
    rw [foldNodeAcls]
    by_cases hc : relevant.contains (a.subject_type, a.subject_id) = true
    · have hd : a.dependencies = [] := hdeps a (List.mem_cons_self _ _) hc
      have hmem : (a.subject_type, a.subject_id) ∈ relevant := by simpa using hc
      rw [if_pos hc, hd, h0 cache]
      show foldNodeAcls relevant check rest (na ||| a.allow_mask) (nd ||| a.deny_mask) cache = _
      rw [ih _ _ _ hrest]
      simp [List.filter_cons, hmem, unionAllow, unionDeny, Nat.lor_assoc]
    · have hnm : ¬(a.subject_type, a.subject_id) ∈ relevant := by simpa using hc
      rw [if_neg hc]
      rw [ih _ _ _ hrest]
      simp [List.filter_cons, hnm]

theorem foldChainNodes_append (st : Store) (relevant : List (SubjectType × String))
    (check : List AclDependency → Cache → Except EvalError (Bool × Cache)) :
    ∀ (l₁ l₂ : List ResourceNode) (eff : Nat) (cache : Cache),
      foldChainNodes st relevant check (l₁ ++ l₂) eff cache =
        match foldChainNodes st relevant check l₁ eff cache with
        | .error e => .error e
        | .ok (eff', cache') => foldChainNodes st relevant check l₂ eff' cache' := by
  intro l₁
  induction l₁ with
  | nil => intro l₂ eff cache; simp [foldChainNodes]
  | cons n rest ih =>
    intro l₂ eff cache
    rw [List.cons_append, foldChainNodes, foldChainNodes]
    match foldNodeAcls relevant check (aclsForResource st n.id) 0 0 cache with
    | .error e => rfl
    | .ok (na, nd, cache') => exact ih l₂ _ cache'

theorem foldChainNodes_noDeps (st : Store) (relevant : List (SubjectType × String))
    (check : List AclDependency → Cache → Except EvalError (Bool × Cache))
    (h0 : ∀ cache, check [] cache = .ok (true, cache))
    (hdeps : ∀ a ∈ st.acls, a.dependencies = []) :
    ∀ (nodes : List ResourceNode) (eff : Nat) (cache : Cache),
      foldChainNodes st relevant check nodes eff cache =
        .ok (nodes.foldl (specNodeStep st relevant) eff, cache) := by
  intro nodes
  induction nodes with
  | nil => intro eff cache; simp [foldChainNodes]
  | cons n rest ih =>
    intro eff cache
    rw [foldChainNodes]
    rw [foldNodeAcls_eq relevant check h0 (aclsForResource st n.id) 0 0 cache
      (fun a ha _ => hdeps a (List.mem_of_mem_filter ha))]
    dsimp only
    rw [ih]
    simp only [List.foldl_cons]
    congr 1
    simp only [specNodeStep, matchingAcls]
    cases n.inherit_mode <;> simp [Nat.zero_or]

/-- Helper for the fold refinement: on a store whose ACL entries carry no
dependencies, one step of `_calc_permissions_for_subject` is exactly the
spec-side fold. -/
theorem calcNoDepsSpec {χ : Type} (st : Store) (strats : List (Strategy χ)) (fuel : Nat)
    (sty : SubjectType) (sid : String) (res : ResourceNode) (ctx : χ)
    (relevant : List (SubjectType × String))
    (hdeps : ∀ a ∈ st.acls, a.dependencies = [])
    (hrel : relevantSubjects st sty sid = .ok relevant) :
    calcPermissionsForSubject st strats (fuel + 1) sty sid res ctx [] [] =
      .ok (specEffective st relevant res.id,
           [((sty, sid, res.id), specEffective st relevant res.id)]) := by
  rw [calcPermissionsForSubject]
  simp only [List.lookup, List.contains, List.elem]
  rw [hrel]
  dsimp only
  rw [foldChainNodes_noDeps st relevant _ (fun _ => rfl) hdeps]
  simp [specEffective]

/-- C1.  The evaluator folds the chain root-to-leaf, at each node unioning
the allow and deny masks of the matching ACLs, combining `node_allow` into
the running mask per the node's inherit mode and then clearing that node's
deny bits per node.  Stated as a refinement: on any store whose ACL entries
carry no dependencies (so the dependency check is trivially true and the
embedded fuel is irrelevant beyond one step), `_calc_permissions_for_subject`
returns exactly the spec-side fold `specEffective` and caches it under the
subject/resource key.  The claim's concrete instance — a single ACL with
`allow=7, deny=2` on a root resource giving effective mask `5` — is the
witness below. -/
theorem calcMatchesSpecFold {χ : Type} (st : Store) (strats : List (Strategy χ)) (fuel : Nat)
    (sty : SubjectType) (sid : String) (res : ResourceNode) (ctx : χ)
    (relevant : List (SubjectType × String))
    (hdeps : ∀ a ∈ st.acls, a.dependencies = [])
    (hrel : relevantSubjects st sty sid = .ok relevant) :
    calcPermissionsForSubject st strats (fuel + 1) sty sid res ctx [] [] =
      .ok (specEffective st relevant res.id,
           [((sty, sid, res.id), specEffective st relevant res.id)]) :=
  calcNoDepsSpec st strats fuel sty sid res ctx relevant hdeps hrel

/-- C1 witness: `assign(u, "a", allow=7, deny=2)` on a fresh root resource;
the effective mask is `0b101 = 5` (VISIT and AVAILABLE, MODIFY denied). -/
def stC1 : Store :=
  { resources := [("a", { id := "a", name := "a", inherit_mode := .OVERRIDE })],
    users := [("u", { id := "u", name := "u" })],
    acls := [mkAcl .USER "u" "a" 7 2] }

theorem calcMatchesSpecFold_witness :
    (∀ a ∈ stC1.acls, a.dependencies = []) ∧
    relevantSubjects stC1 .USER "u" = .ok [(.USER, "u")] ∧
    specEffective stC1 [(.USER, "u")] "a" = 5 ∧
    calcPermissionsForSubject stC1 ([] : List (Strategy Unit)) 1 .USER "u"
        { id := "a", name := "a", inherit_mode := .OVERRIDE } () [] [] =
      .ok (5, [((.USER, "u", "a"), 5)]) := by
  refine ⟨by decide, rfl, rfl, ?_⟩
  exact calcMatchesSpecFold stC1 [] 0 .USER "u"
    { id := "a", name := "a", inherit_mode := .OVERRIDE } () [(.USER, "u")]
    (by decide) rfl

/-- The dependency evaluation the source performs inside
`_check_acl_dependencies`: it calls `_get_effective_permissions_for_subject`
on the dependency's subject and resource — the full effective computation,
strategies included for USER subjects.  Definitionally equal both to the
closure inside `calcPermissionsForSubject` and to
`getEffectiveForSubject st strats fuel · · · ctx visited ·`. -/
def evalDepFun {χ : Type} (st : Store) (strats : List (Strategy χ)) (fuel : Nat)
    (ctx : χ) (visited : List EvalKey) :
    SubjectType → String → ResourceNode → Cache → Except EvalError (Nat × Cache) :=
  fun dsty dsid dres dcache =>
    match calcPermissionsForSubject st strats fuel dsty dsid dres ctx visited dcache with
    | .error e => .error e
    | .ok (m, dcache) =>
      match dsty with
      | .USER =>
        match getUserE st dsid with
        | .error e => .error e
        | .ok u => .ok (applyStrategies strats u dres ctx m, dcache)
      | .ROLE => .ok (m, dcache)

/-- One successful unfolding step of `_calc_permissions_for_subject` at a
fresh visited stack and cache. -/
theorem calc_fuelSucc_eq {χ : Type} (st : Store) (strats : List (Strategy χ)) (f : Nat)
    (sty : SubjectType) (sid : String) (res : ResourceNode) (ctx : χ)
    (relevant : List (SubjectType × String))
    (hrel : relevantSubjects st sty sid = .ok relevant) :
    calcPermissionsForSubject st strats (f + 1) sty sid res ctx [] [] =
      match foldChainNodes st relevant
          (checkAclDependencies st (evalDepFun st strats f ctx [(sty, sid, res.id)]))
          ((getResourceChain st res.id).reverse) 0 [] with
      | .error e => .error e
      | .ok (eff, cache) => .ok (eff, cache ++ [((sty, sid, res.id), eff)]) := by
  rw [calcPermissionsForSubject]
  simp only [List.lookup, List.contains, List.elem]
  rw [hrel]
  rfl

/-- C2.  On an `OVERRIDE` resource, for a roleless user, only that
resource's own matching (dependency-free) ACLs determine the result:
whatever mask the ancestor part of the fold produced, the value returned
is `applyDeny (unionAllow l) (unionDeny l)` for the list `l` of matching
entries at the resource — `A &&& ~D` for a single entry with allow `A` and
deny `D`, and `0` when `l` is empty even if ancestors grant bits.  Stated
for an evaluation (`strategies = []`) that returns a value. -/
theorem overrideNodeDeterminesMask {χ : Type} (st : Store) (fuel : Nat) (ctx : χ)
    (s rid : String) (u : User) (r : ResourceNode) (l : List AclEntry) (v : Nat)
    (hu : st.users.lookup s = some u) (hroles : u.role_ids = []) (huid : u.id = s)
    (hr : st.resources.lookup rid = some r) (hrid : r.id = rid)
    (hmode : r.inherit_mode = .OVERRIDE)
    (hl : matchingAcls st [(.USER, s)] rid = l)
    (hdeps : ∀ a ∈ l, a.dependencies = [])
    (hok : getEffectivePermissionsE st ([] : List (Strategy χ)) fuel s rid ctx = .ok v) :
    v = applyDeny (unionAllow l) (unionDeny l) := by
  have hrel : relevantSubjects st .USER s = .ok [(.USER, s)] := by
    simp [relevantSubjects, hu, hroles, huid, expandRoles]
  have hnode : ∀ a ∈ aclsForResource st r.id,
      ([((SubjectType.USER : SubjectType), s)]).contains (a.subject_type, a.subject_id) = true →
      a.dependencies = [] := by
    intro a ha hc
    apply hdeps
    rw [← hl]
    exact List.mem_filter.mpr ⟨by rwa [hrid] at ha, hc⟩
  obtain ⟨tl, hchain⟩ : ∃ tl, getResourceChain st rid = r :: tl :=
    ⟨_, by rw [getResourceChain, hr]; rfl⟩
  cases fuel with
  | zero =>
    exfalso
    simp [getEffectivePermissionsE, hr, getEffectiveForSubject,
      calcPermissionsForSubject] at hok
  | succ f =>
    unfold getEffectivePermissionsE at hok
    rw [hr] at hok
    dsimp only at hok
    unfold getEffectiveForSubject at hok
    rw [calc_fuelSucc_eq st [] f .USER s r ctx [(.USER, s)] hrel] at hok
    rw [hrid, hchain, List.reverse_cons, foldChainNodes_append] at hok
    cases hfold : foldChainNodes st [(.USER, s)]
        (checkAclDependencies st (evalDepFun st [] f ctx [(.USER, s, rid)]))
        tl.reverse 0 [] with
    | error e => rw [hfold] at hok; simp at hok
    | ok p =>
      obtain ⟨eff₀, c₀⟩ := p
      rw [hfold] at hok
      dsimp only at hok
      rw [foldChainNodes] at hok
      rw [foldNodeAcls_eq _ _ (fun _ => rfl) _ 0 0 c₀ hnode] at hok
      dsimp only at hok
      rw [hmode] at hok
      have hlr : (aclsForResource st r.id).filter
          (fun a => ([((SubjectType.USER : SubjectType), s)]).contains (a.subject_type, a.subject_id)) = l := by
        rw [← hl, matchingAcls, hrid]
      rw [hlr] at hok
      rw [foldChainNodes] at hok
      dsimp only at hok
      have hgu : getUserE st s = .ok u := by simp [getUserE, hu]
      rw [hgu] at hok
      simp only [applyStrategies, List.foldl_nil] at hok
      simp only [Except.ok.injEq, Nat.zero_or] at hok
      exact hok.symm

/-- C2 witness store: `x` (MERGE) grants 7, the OVERRIDE leaf `x.y` has the
single matching ACL `allow=7, deny=2`; the ancestor grant does not leak. -/
def stC2 : Store :=
  { resources := [("x", { id := "x", name := "x", inherit_mode := .MERGE, type_ := "DIR" }),
                  ("x.y", { id := "x.y", name := "y", parent_id := some "x",
                            inherit_mode := .OVERRIDE })],
    users := [("u", { id := "u", name := "u" })],
    acls := [mkAcl .USER "u" "x" 7 0, mkAcl .USER "u" "x.y" 7 2] }

theorem overrideNodeDeterminesMask_witness :
    getEffectivePermissionsE stC2 ([] : List (Strategy Unit)) 2 "u" "x.y" () = .ok 5 ∧
    (5 : Nat) =
      applyDeny (unionAllow [mkAcl .USER "u" "x.y" 7 2]) (unionDeny [mkAcl .USER "u" "x.y" 7 2]) :=
  ⟨rfl,
    overrideNodeDeterminesMask stC2 2 () "u" "x.y" { id := "u", name := "u" }
      { id := "x.y", name := "y", parent_id := some "x", inherit_mode := .OVERRIDE }
      [mkAcl .USER "u" "x.y" 7 2] 5 rfl rfl rfl rfl rfl rfl rfl (by decide) rfl⟩

/-! ## C3: dependency cycles -/

/-- Scenario S7: two ACLs that each depend on the other. -/
def aclCycA : AclEntry :=
  { subject_type := .USER, subject_id := "u", resource_id := "a",
    allow_mask := 7, dependencies := [⟨.USER, "u", "b", 4⟩] }

def aclCycB : AclEntry :=
  { subject_type := .USER, subject_id := "u", resource_id := "b",
    allow_mask := 7, dependencies := [⟨.USER, "u", "a", 4⟩] }

def stS7 : Store :=
  { resources := [("a", { id := "a", name := "a", inherit_mode := .OVERRIDE }),
                  ("b", { id := "b", name := "b", inherit_mode := .OVERRIDE })],
    users := [("u", { id := "u", name := "u" })],
    acls := [aclCycA, aclCycB] }

/-- C3 counterexample ACL: `u`'s entry on `a` lists an unmet dependency on
`(u, b)` *before* a dependency on `(u, a)` itself — a self-loop in the
dependency graph at the starting key. -/
def aclShortX : AclEntry :=
  { subject_type := .USER, subject_id := "u", resource_id := "a",
    allow_mask := 7, dependencies := [⟨.USER, "u", "b", 4⟩, ⟨.USER, "u", "a", 4⟩] }

/-- C3 counterexample store: `b` carries no ACL, so the first dependency of
`aclShortX` is unmet. -/
def stC3x : Store :=
  { resources := [("a", { id := "a", name := "a", inherit_mode := .OVERRIDE }),
                  ("b", { id := "b", name := "b", inherit_mode := .OVERRIDE })],
    users := [("u", { id := "u", name := "u" })],
    acls := [aclShortX] }

/-- C3 counterexample.  The dependency graph of `stC3x` has a cycle
reachable from the starting key `(USER, u, a)` — the sole ACL matching that
key depends on `(USER, u, a)` itself — yet
`get_effective_permissions(u, "a")` does not raise `DependencyCycle`: the
dependency walk of `_check_acl_dependencies` stops at the first unmet
dependency (`(u, b)`, whose mask is 0), the cyclic dependency after it is
never evaluated, the entry is skipped, and evaluation returns mask 0. -/
theorem cycleShortCircuited_cx :
    getPrimaryAcl stC3x .USER "u" "a" = some aclShortX ∧
    aclShortX.dependencies = [⟨.USER, "u", "b", 4⟩, ⟨.USER, "u", "a", 4⟩] ∧
    getEffectivePermissionsE stC3x ([] : List (Strategy Unit)) 9 "u" "a" () = .ok 0 :=
  ⟨rfl, rfl, rfl⟩

/-- C3 amended.  `DependencyCycle` is raised exactly when dependency
evaluation *revisits* a key already on the visited stack — not whenever the
dependency graph merely contains a reachable cycle, since
`_check_acl_dependencies` walks an entry's dependencies in order and stops
at the first unmet one, which can leave a graph cycle unexplored (the
counterexample).  First conjunct: whenever evaluation reaches an uncached
key already on the visited stack, it raises `DependencyCycle` carrying the
stack's suffix from that key's first occurrence, closed with the key
itself — so every actually-revisited cycle fails in finite time with the
chain of keys forming the cycle.  Second conjunct: the claim's S7 instance
— `a` depends on `(u, b)` and `b` back on `(u, a)` — raises
`DependencyCycle` listing both keys, for every fuel of at least 3, so the
result does not depend on the bound. -/
theorem cycleRaisedOnRevisit :
    (∀ (χ : Type) (st : Store) (strats : List (Strategy χ)) (fuel : Nat)
        (sty : SubjectType) (sid : String) (res : ResourceNode) (ctx : χ)
        (visited : List EvalKey) (cache : Cache),
      cache.lookup (sty, sid, res.id) = none →
      visited.contains (sty, sid, res.id) = true →
      calcPermissionsForSubject st strats (fuel + 1) sty sid res ctx visited cache =
        .error (.cycle (visited.drop (visited.findIdx (· == (sty, sid, res.id))) ++
          [(sty, sid, res.id)]))) ∧
    (∀ f : Nat,
      getEffectivePermissionsE stS7 ([] : List (Strategy Unit)) (f + 3) "u" "a" () =
        .error (.cycle [(.USER, "u", "a"), (.USER, "u", "b"), (.USER, "u", "a")])) := by
  constructor
  · intro χ st strats fuel sty sid res ctx visited cache hc hv
    rw [calcPermissionsForSubject]
    dsimp only
    rw [hc]
    dsimp only
    rw [if_pos hv]
  · intro f
    rfl

theorem cycleRaisedOnRevisit_witness :
    calcPermissionsForSubject stS7 ([] : List (Strategy Unit)) 5 .USER "u"
        { id := "a", name := "a", inherit_mode := .OVERRIDE } ()
        [(.USER, "u", "a")] [] =
      .error (.cycle [(.USER, "u", "a"), (.USER, "u", "a")]) :=
  cycleRaisedOnRevisit.1 Unit stS7 [] 4 .USER "u"
    { id := "a", name := "a", inherit_mode := .OVERRIDE } ()
    [(.USER, "u", "a")] [] rfl rfl

/-! ## C4: strategies and dependency checks -/

/-- Modelled from the spec: the evaluation pseudocode of §4.5 in which
`check_deps` compares a dependency's required mask against `compute_mask`
alone — the static value, with no strategy transforms — and checks each
ACL's dependencies once.  This is the claim's reading; the source instead
routes dependency evaluation through
`_get_effective_permissions_for_subject`. -/
def specCalcStatic {χ : Type} (st : Store) :
    Nat → SubjectType → String → ResourceNode → χ → List EvalKey → Cache →
      Except EvalError (Nat × Cache)
  | 0, _, _, _, _, _, _ => .error .outOfFuel
  | fuel + 1, sty, sid, res, ctx, visited, cache =>
    let key : EvalKey := (sty, sid, res.id)
    match cache.lookup key with
    | some v => .ok (v, cache)
    | none =>
      if visited.contains key then
        .error (.cycle (visited.drop (visited.findIdx (· == key)) ++ [key]))
      else
        let visited := visited ++ [key]
        match relevantSubjects st sty sid with
        | .error e => .error e
        | .ok relevant =>
          let chain := (getResourceChain st res.id).reverse
          let evalDep : SubjectType → String → ResourceNode → Cache →
              Except EvalError (Nat × Cache) := fun dsty dsid dres dcache =>
            specCalcStatic st fuel dsty dsid dres ctx visited dcache
          match foldChainNodes st relevant (checkAclDependencies st evalDep) chain 0 cache with
          | .error e => .error e
          | .ok (eff, cache) => .ok (eff, cache ++ [(key, eff)])

/-- Modelled from the spec: `effective_permissions` over `specCalcStatic`,
with the strategy chain applied exactly once, to the top-level USER's base
mask. -/
def specGetEffectiveStatic {χ : Type} (st : Store) (strats : List (Strategy χ))
    (fuel : Nat) (uid rid : String) (ctx : χ) : Except EvalError Nat :=
  match st.resources.lookup rid with
  | none => .error (.notFound rid)
  | some res =>
    match specCalcStatic st fuel .USER uid res ctx [] [] with
    | .error e => .error e
    | .ok (m, _) =>
      match getUserE st uid with
      | .error e => .error e
      | .ok u => .ok (applyStrategies strats u res ctx m)

/-- A strategy that grants VISIT unconditionally. -/
def strat4 : Strategy Unit := fun _ _ _ m => m ||| VISIT

def resA : ResourceNode := { id := "a", name := "a", inherit_mode := .OVERRIDE }

/-- C4 counterexample store: `u`'s ACL on `a` (allow 7) depends on
`(u, q, VISIT)`; there is no ACL on `q`, so the static mask on `q` is 0 and
the dependency is unmet statically, but the registered strategy adds VISIT. -/
def stC4 : Store :=
  { resources := [("a", resA),
                  ("q", { id := "q", name := "q", inherit_mode := .OVERRIDE })],
    users := [("u", { id := "u", name := "u" })],
    acls := [{ subject_type := .USER, subject_id := "u", resource_id := "a",
               allow_mask := 7, dependencies := [⟨.USER, "u", "q", 4⟩] }] }

/-- C4 counterexample.  The claim says dependency checks compare against the
static `compute_mask` alone; under that reading (`specGetEffectiveStatic`)
the evaluation of `u` on `a` gives 4 (dependency unmet, base 0, strategy
adds VISIT), but the source's evaluation gives 7: the dependency's mask went
through `_get_effective_permissions_for_subject` and so was transformed by
the strategy chain before the comparison. -/
theorem strategyAppliedToDependencyMask_cx :
    getEffectivePermissionsE stC4 [strat4] 9 "u" "a" () = .ok 7 ∧
    specGetEffectiveStatic stC4 [strat4] 9 "u" "a" () = .ok 4 :=
  ⟨rfl, rfl⟩

/-- C4 amended.  The strategy chain is applied exactly once *per
`_get_effective_permissions_for_subject` activation with a USER subject*:
once at top level for a USER (roles bypass it), but dependency evaluation
also goes through that entry point (`evalDepFun` is definitionally the
dependency evaluator used inside `_calc_permissions_for_subject`), so USER
dependency masks are strategy-transformed before comparison with the
required mask. -/
theorem strategiesOncePerUserActivation {χ : Type} (st : Store)
    (strats : List (Strategy χ)) (fuel : Nat) (sid : String) (res : ResourceNode)
    (ctx : χ) (visited : List EvalKey) (cache : Cache) :
    (getEffectiveForSubject st strats fuel .ROLE sid res ctx visited cache =
      calcPermissionsForSubject st strats fuel .ROLE sid res ctx visited cache) ∧
    (∀ m c u,
      calcPermissionsForSubject st strats fuel .USER sid res ctx visited cache = .ok (m, c) →
      st.users.lookup sid = some u →
      getEffectiveForSubject st strats fuel .USER sid res ctx visited cache =
        .ok (applyStrategies strats u res ctx m, c)) ∧
    (evalDepFun st strats fuel ctx visited = fun dsty dsid dres dcache =>
      getEffectiveForSubject st strats fuel dsty dsid dres ctx visited dcache) := by
  refine ⟨?_, ?_, rfl⟩
  · unfold getEffectiveForSubject
    cases calcPermissionsForSubject st strats fuel .ROLE sid res ctx visited cache with
    | error e => rfl
    | ok p => rfl
  · intro m c u hcalc hu
    unfold getEffectiveForSubject
    rw [hcalc]
    simp [getUserE, hu]

theorem strategiesOncePerUserActivation_witness :
    getEffectiveForSubject stC4 [strat4] 9 .USER "u" resA () [] [] =
      .ok (applyStrategies [strat4] { id := "u", name := "u" } resA () 7,
           [((.USER, "u", "q"), 0), ((.USER, "u", "a"), 7)]) :=
  (strategiesOncePerUserActivation stC4 [strat4] 9 "u" resA () [] []).2.1 7
    [((.USER, "u", "q"), 0), ((.USER, "u", "a"), 7)] { id := "u", name := "u" } rfl rfl

/-! ## C5: the `get` gates -/

/-- C5 counterexample store: executor `e` holds only VISIT on the parent
`x` (AVAILABLE missing) and full 7 on the OVERRIDE leaf `x.y`. -/
def stC5 : Store :=
  { resources := [("x", { id := "x", name := "x", inherit_mode := .MERGE, type_ := "DIR" }),
                  ("x.y", { id := "x.y", name := "y", parent_id := some "x",
                            inherit_mode := .OVERRIDE })],
    users := [("e", { id := "e", name := "e" })],
    acls := [mkAcl .USER "e" "x" 4 0, mkAcl .USER "e" "x.y" 7 0] }

/-- C5 counterexample.  The executor's effective mask on `x.y` itself is 7
— VISIT is present — so the claim says `get` returns it; but the source
raises `PermissionDenied`, because `get` *does* impose a separate
requirement on the parent (VISIT and AVAILABLE), which `e` fails on `x`. -/
theorem getChecksParent_cx :
    getEffectivePermissionsE stC5 ([] : List (Strategy Unit)) 5 "e" "x.y" () = .ok 7 ∧
    getP stC5 ([] : List (Strategy Unit)) 5 "e" "x.y" false () = .error .permissionDenied :=
  ⟨rfl, rfl⟩

/-- C5 amended.  `get` raises `PermissionDenied` exactly when the executor
lacks VISIT or AVAILABLE on the (existing) parent, or VISIT on the resource
itself (checked in that order); otherwise it returns the self mask.  The
claim's "no separate permission requirement on the parent" does not hold:
an ancestor deny does not necessarily zero VISIT in the self mask (an
OVERRIDE node resets the fold), and the source checks the parent
explicitly. -/
theorem getRequiresParentVisitAvailable {χ : Type} (st : Store) (strats : List (Strategy χ))
    (fuel : Nat) (executor rp : String) (missingOk : Bool) (ctx : χ)
    (par node : ResourceNode) (pm sm : Nat)
    (hres : getParentAndSelf st rp missingOk = .ok (some par, some node))
    (hpm : getEffectivePermissionsE st strats fuel executor par.id ctx = .ok pm)
    (hsm : getEffectivePermissionsE st strats fuel executor node.id ctx = .ok sm) :
    getP st strats fuel executor rp missingOk ctx =
      if pm &&& (VISIT ||| AVAILABLE) ≠ VISIT ||| AVAILABLE then .error .permissionDenied
      else if sm &&& VISIT ≠ VISIT then .error .permissionDenied
      else .ok (some sm) := by
  unfold getP
  rw [hres]
  dsimp only
  rw [hpm]
  dsimp only
  by_cases hp : pm &&& (VISIT ||| AVAILABLE) ≠ VISIT ||| AVAILABLE
  · simp [hp]
  · rw [if_neg hp, if_neg hp]
    dsimp only
    rw [hsm]

theorem getRequiresParentVisitAvailable_witness :
    getP stC5 ([] : List (Strategy Unit)) 5 "e" "x.y" false () =
      (if (4 : Nat) &&& (VISIT ||| AVAILABLE) ≠ VISIT ||| AVAILABLE then
        .error ExecError.permissionDenied
       else if (7 : Nat) &&& VISIT ≠ VISIT then .error ExecError.permissionDenied
       else .ok (some 7)) :=
  getRequiresParentVisitAvailable stC5 [] 5 "e" "x.y" false ()
    { id := "x", name := "x", inherit_mode := .MERGE, type_ := "DIR" }
    { id := "x.y", name := "y", parent_id := some "x", inherit_mode := .OVERRIDE }
    4 7 rfl rfl rfl

/-! ## C6: the `set` gates -/

theorem defineGo_acls (mode : Option InheritMode) (ty : String) :
    ∀ (rest : List String) (st : Store) (pid : Option String) (part : String),
      (defineGo mode ty st pid part rest).1.acls = st.acls := by
  intro rest
  induction rest with
  | nil =>
    intro st pid part
    unfold defineGo
    cases h : st.resources.lookup (childId pid part) <;> simp [h, putResource]
  | cons q qs ih =>
    intro st pid part
    unfold defineGo
    cases h : st.resources.lookup (childId pid part) <;> simp [h, putResource, ih]

theorem define_acls (st : Store) (p : String) (mode : Option InheritMode) (ty : String)
    (st' : Store) (n : ResourceNode) (h : define st p mode ty = .ok (st', n)) :
    st'.acls = st.acls := by
  unfold define at h
  cases hp : pathParts p with
  | nil => rw [hp] at h; simp at h
  | cons a l =>
    rw [hp] at h
    simp only [Except.ok.injEq] at h
    exact (congrArg (fun q => q.1.acls) h).symm.trans (defineGo_acls mode ty l st none a)

theorem ensure_acls (st : Store) (p : String) (mo : Bool) (st₂ : Store)
    (par : Option ResourceNode) (node : ResourceNode)
    (h : ensureResourceForSet st p mo = .ok (st₂, par, node)) : st₂.acls = st.acls := by
  unfold ensureResourceForSet at h
  cases hg : getParentAndSelf st p mo with
  | error e => rw [hg] at h; simp at h
  | ok pr =>
    obtain ⟨parent, selfN⟩ := pr
    rw [hg] at h
    cases selfN with
    | some n0 =>
      simp only [Except.ok.injEq, Prod.mk.injEq] at h
      rw [← h.1]
    | none =>
      dsimp only at h
      split at h
      · simp at h
      · cases hd : define st p none "GENERIC" with
        | error e => rw [hd] at h; simp at h
        | ok pr2 =>
          obtain ⟨st₃, n₃⟩ := pr2
          rw [hd] at h
          simp only [Except.ok.injEq, Prod.mk.injEq] at h
          rw [← h.1]
          exact define_acls st p none "GENERIC" st₃ n₃ hd

/-- C6 amended.  When the resolved node's effective mask for the executor
lacks MODIFY, a single-path `set` leaves every ACL entry untouched and
reports no error — but the *resolution step itself* may already have
created missing resources (`_ensure_resource_for_set` runs before the
gates), and the parent gate requires VISIT+MODIFY+AVAILABLE and raises
`PermissionDenied` instead of skipping.  The ACL table is nevertheless
exactly the input one. -/
theorem setWithoutModifyLeavesAclsUnchanged {χ : Type} (st : Store)
    (strats : List (Strategy χ)) (fuel : Nat) (executor : String)
    (tsty : SubjectType) (tsid : String) (p : String) (mask : Nat) (mode : Char)
    (missingOk : Bool) (ctx : χ) (st₂ : Store) (parent : Option ResourceNode)
    (node : ResourceNode) (sm : Nat)
    (hglob : hasGlobChar (stripSep p) = false)
    (hens : ensureResourceForSet st (stripSep p) missingOk = .ok (st₂, parent, node))
    (hpar : match parent with
            | none => True
            | some par => ∃ pm,
                getEffectivePermissionsE st₂ strats fuel executor par.id ctx = .ok pm ∧
                pm &&& (VISIT ||| MODIFY ||| AVAILABLE) = VISIT ||| MODIFY ||| AVAILABLE)
    (hsm : getEffectivePermissionsE st₂ strats fuel executor node.id ctx = .ok sm)
    (hnomod : sm &&& MODIFY ≠ MODIFY) :
    setP st strats fuel executor tsty tsid (.path p) mask mode missingOk ctx = (st₂, none) ∧
    st₂.acls = st.acls := by
  refine ⟨?_, ensure_acls st (stripSep p) missingOk st₂ parent node hens⟩
  unfold setP
  dsimp only
  rw [if_neg (by simp [hglob]), hens]
  dsimp only
  have hgate :
      (match parent with
        | none => (none : Option ExecError)
        | some par =>
          match getEffectivePermissionsE st₂ strats fuel executor par.id ctx with
          | .error e => some (.evalFail e)
          | .ok pm =>
            if pm &&& (VISIT ||| MODIFY ||| AVAILABLE) ≠ VISIT ||| MODIFY ||| AVAILABLE then
              some .permissionDenied
            else none) = none := by
    cases parent with
    | none => rfl
    | some par =>
      obtain ⟨pm, hpm, hpmask⟩ := hpar
      dsimp only
      rw [hpm]
      simp [hpmask]
  rw [hgate]
  dsimp only
  unfold setOnNode
  rw [hsm]
  simp [hnomod]

/-- C6 counterexample store: empty resource tree, executor `e` and target
`t`. -/
def stC6 : Store :=
  { users := [("e", { id := "e", name := "e" }), ("t", { id := "t", name := "t" })] }

/-- The result of `set(e, t, "x", MODIFY, missing_ok=True)` on `stC6`. -/
def stC6r : Store × Option ExecError :=
  setP stC6 ([] : List (Strategy Unit)) 5 "e" .USER "t" (.path "x") 2 '=' true ()

/-- C6 counterexample.  The executor's effective mask on the resolved node
lacks MODIFY (it is 0), and indeed no ACL entry is created or modified and
the call reports nothing — but the store *is* changed: the missing resource
`x` was created by the resolution step before the gate, refuting "no
resource node is created". -/
theorem setGateStillCreatesResource_cx :
    stC6.resources = [] ∧
    stC6r.1.resources = [("x", { id := "x", name := "x", inherit_mode := .OVERRIDE })] ∧
    stC6r.2 = none ∧
    stC6r.1.acls = [] ∧
    getEffectivePermissionsE stC6r.1 ([] : List (Strategy Unit)) 5 "e" "x" () = .ok 0 :=
  ⟨rfl, rfl, rfl, rfl, rfl⟩

/-- C6 witness store: `x` exists, executor `e` holds VISIT+AVAILABLE but
not MODIFY on it. -/
def stC6w : Store :=
  { resources := [("x", { id := "x", name := "x", inherit_mode := .OVERRIDE })],
    users := [("e", { id := "e", name := "e" }), ("t", { id := "t", name := "t" })],
    acls := [mkAcl .USER "e" "x" 5 0] }

theorem setWithoutModifyLeavesAclsUnchanged_witness :
    setP stC6w ([] : List (Strategy Unit)) 3 "e" .USER "t" (.path "x") 2 '=' false () =
      (stC6w, none) ∧
    stC6w.acls = stC6w.acls :=
  setWithoutModifyLeavesAclsUnchanged stC6w [] 3 "e" .USER "t" "x" 2 '=' false ()
    stC6w none { id := "x", name := "x", inherit_mode := .OVERRIDE } 5
    rfl rfl trivial rfl (by decide)

/-! ## C7: primary ACL uniqueness and `assign` -/

theorem assignMatched_append (sty : SubjectType) (sid : String) (allow deny : Nat) :
    ∀ (nodes : List ResourceNode) (st : Store),
      ∃ tail, (assignMatched sty sid allow deny st nodes).acls = st.acls ++ tail ∧
        ∀ b ∈ tail, b.deny_mask = deny ∧ b.dependencies = [] := by
  intro nodes
  induction nodes with
  | nil => intro st; exact ⟨[], by simp [assignMatched], by simp⟩
  | cons n rest ih =>
    intro st
    rw [assignMatched]
    by_cases hpr : (getPrimaryAcl st sty sid n.id).isSome = true
    · rw [if_pos hpr]; exact ih st
    · rw [if_neg hpr]
      obtain ⟨tail, htail, hz⟩ := ih (addAcl st (mkAcl sty sid n.id allow deny))
      refine ⟨mkAcl sty sid n.id allow deny :: tail, ?_, ?_⟩
      · rw [show (addAcl st (mkAcl sty sid n.id allow deny)).acls
            = st.acls ++ [mkAcl sty sid n.id allow deny] from rfl] at htail
        rw [htail]
        simp
      · intro b hb
        rcases List.mem_cons.mp hb with h1 | h1
        · subst h1; exact ⟨rfl, rfl⟩
        · exact hz b h1

/-- C7 amended, part 1: `assign` never removes or rewrites entries — the
resulting ACL list is the input list plus appended fresh entries — hence
any subject/resource key's primary entry (the first in insertion order) is
unchanged whenever one already existed.  Part 3: but on a *plain* path
`assign` appends unconditionally — exactly one new entry even when a
primary for the same key already exists (the primary-exists skip lives only
in the glob/predicate loop), so duplicate entries for one key are possible
and the claim's "further assign is a no-op" fails (see the
counterexample). -/
theorem assignAppendsOnly (st : Store) (sty : SubjectType) (sid : String)
    (sel : ResourceSel) (allow deny : Nat) (st' : Store)
    (h : assign st sty sid sel allow deny = .ok st') :
    (∃ tail, st'.acls = st.acls ++ tail) ∧
    (∀ k1 k2 k3 e, getPrimaryAcl st k1 k2 k3 = some e → getPrimaryAcl st' k1 k2 k3 = some e) ∧
    (∀ p, sel = ResourceSel.path p → hasGlobChar (stripSep p) = false →
      ∃ rid, st'.acls = st.acls ++ [mkAcl sty sid rid allow deny]) := by
  have htail : ∃ tail, st'.acls = st.acls ++ tail := by
    cases sel with
    | pred f =>
      unfold assign at h
      simp only [Except.ok.injEq] at h
      rw [← h]
      obtain ⟨tail, h1, _⟩ := assignMatched_append sty sid allow deny (matchResources st f) st
      exact ⟨tail, h1⟩
    | path p =>
      unfold assign at h
      dsimp only at h
      split at h
      · simp only [Except.ok.injEq] at h
        rw [← h]
        obtain ⟨tail, h1, _⟩ :=
          assignMatched_append sty sid allow deny (globResources st (stripSep p)) st
        exact ⟨tail, h1⟩
      · cases hd : define st (stripSep p) none "GENERIC" with
        | error e => rw [hd] at h; simp at h
        | ok pr =>
          obtain ⟨std, res⟩ := pr
          rw [hd] at h
          simp only [Except.ok.injEq] at h
          rw [← h]
          exact ⟨[mkAcl sty sid res.id allow deny], by
            simp [addAcl, define_acls st (stripSep p) none "GENERIC" std res hd]⟩
  refine ⟨htail, ?_, ?_⟩
  · intro k1 k2 k3 e he
    obtain ⟨tail, htl⟩ := htail
    unfold getPrimaryAcl at he ⊢
    rw [htl, List.find?_append, he]
    rfl
  · intro p hsel hglob
    subst hsel
    unfold assign at h
    dsimp only at h
    rw [if_neg (by simp [hglob])] at h
    cases hd : define st (stripSep p) none "GENERIC" with
    | error e => rw [hd] at h; simp at h
    | ok pr =>
      obtain ⟨std, res⟩ := pr
      rw [hd] at h
      simp only [Except.ok.injEq] at h
      rw [← h]
      exact ⟨res.id, by
        simp [addAcl, define_acls st (stripSep p) none "GENERIC" std res hd]⟩

/-- C7 counterexample base store. -/
def stC7 : Store := { users := [("u", { id := "u", name := "u" })] }

/-- `assign(u, "a", 7)` then `assign(u, "a", 5)` again. -/
def stC7r : Except String Store :=
  match assign stC7 .USER "u" (.path "a") 7 0 with
  | .error e => .error e
  | .ok st1 => assign st1 .USER "u" (.path "a") 5 0

/-- C7 counterexample.  A second plain-path `assign` for the same
`(subject, resource)` is *not* a no-op: it appends a second entry with the
same key (two entries match the key afterwards), violating "at most one
primary ACL exists per key" as an invariant of `assign`; `get_primary_acl`
still returns the original first entry. -/
theorem assignSecondEntry_cx :
    stC7r.map (fun st => st.acls.length) = .ok 2 ∧
    stC7r.map (fun st => st.acls.countP (aclKeyMatch .USER "u" "a")) = .ok 2 ∧
    stC7r.map (fun st => getPrimaryAcl st .USER "u" "a") =
      .ok (some (mkAcl .USER "u" "a" 7 0)) :=
  ⟨rfl, rfl, rfl⟩

/-- C7 witness store: `a` exists and already has a primary entry for `u`. -/
def stC7b : Store :=
  { resources := [("a", { id := "a", name := "a", inherit_mode := .OVERRIDE })],
    users := [("u", { id := "u", name := "u" })],
    acls := [mkAcl .USER "u" "a" 7 0] }

theorem assignAppendsOnly_witness :
    (∃ tail, (stC7b.acls ++ [mkAcl .USER "u" "a" 5 0]) = stC7b.acls ++ tail) ∧
    (∀ k1 k2 k3 e, getPrimaryAcl stC7b k1 k2 k3 = some e →
      getPrimaryAcl { stC7b with acls := stC7b.acls ++ [mkAcl .USER "u" "a" 5 0] } k1 k2 k3 =
        some e) ∧
    (∀ p, ResourceSel.path "a" = ResourceSel.path p → hasGlobChar (stripSep p) = false →
      ∃ rid, (stC7b.acls ++ [mkAcl .USER "u" "a" 5 0]) = stC7b.acls ++ [mkAcl .USER "u" rid 5 0]) := by
  have h := assignAppendsOnly stC7b .USER "u" (.path "a") 5 0
    { stC7b with acls := stC7b.acls ++ [mkAcl .USER "u" "a" 5 0] } rfl
  exact ⟨h.1, h.2.1, fun p hp hg => by
    obtain ⟨rid, hrid⟩ := h.2.2 p hp hg
    exact ⟨rid, by simpa using hrid⟩⟩

/-! ## C8: the chmod round trip -/

theorem matchingAcls_userSingleton (st : Store) (s rid : String) :
    matchingAcls st [(.USER, s)] rid = st.acls.filter (aclKeyMatch .USER s rid) := by
  unfold matchingAcls aclsForResource
  rw [List.filter_filter]
  apply List.filter_congr
  intro a _
  simp only [aclKeyMatch, List.contains, List.elem]
  cases h1 : a.subject_type == SubjectType.USER <;>
    cases h2 : a.subject_id == s <;>
    cases h3 : a.resource_id == rid <;>
    simp_all [BEq.beq]

theorem aclKeyMatch_setAllow (sty : SubjectType) (sid rid : String) (a : AclEntry) (m : Nat) :
    aclKeyMatch sty sid rid { a with allow_mask := m } = aclKeyMatch sty sid rid a := rfl

theorem filter_setPrimaryAllow (sty : SubjectType) (sid rid : String) (m : Nat) :
    ∀ (acls : List AclEntry) (e₀ : AclEntry),
      acls.filter (aclKeyMatch sty sid rid) = [e₀] →
      (setPrimaryAllow sty sid rid m acls).filter (aclKeyMatch sty sid rid) =
        [{ e₀ with allow_mask := m }] := by
  intro acls
  induction acls with
  | nil => intro e₀ h; simp at h
  | cons a rest ih =>
    intro e₀ h
    cases hk : aclKeyMatch sty sid rid a with
    | true =>
      rw [setPrimaryAllow, if_pos hk]
      rw [List.filter_cons,
        if_pos (show aclKeyMatch sty sid rid { a with allow_mask := m } = true from hk)]
      rw [List.filter_cons, if_pos hk] at h
      simp only [List.cons.injEq] at h
      rw [h.2, ← h.1]
    | false =>
      rw [setPrimaryAllow, if_neg (by simp [hk])]
      rw [List.filter_cons, if_neg (by simp [hk])]
      rw [List.filter_cons, if_neg (by simp [hk])] at h
      exact ih e₀ h

theorem setPrimaryAllow_deps (sty : SubjectType) (sid rid : String) (m : Nat) :
    ∀ (acls : List AclEntry) (a : AclEntry), a ∈ setPrimaryAllow sty sid rid m acls →
      ∃ b ∈ acls, a.dependencies = b.dependencies := by
  intro acls
  induction acls with
  | nil => intro a h; simp [setPrimaryAllow] at h
  | cons b rest ih =>
    intro a h
    rw [setPrimaryAllow] at h
    split at h
    · rcases List.mem_cons.mp h with h1 | h1
      · exact ⟨b, List.mem_cons_self _ _, by rw [h1]⟩
      · exact ⟨a, List.mem_cons_of_mem _ h1, rfl⟩
    · rcases List.mem_cons.mp h with h1 | h1
      · exact ⟨b, List.mem_cons_self _ _, by rw [h1]⟩
      · obtain ⟨c, hc, hdep⟩ := ih a h1
        exact ⟨c, List.mem_cons_of_mem _ hc, hdep⟩

theorem specEffective_override (st : Store) (relevant : List (SubjectType × String))
    (rid : String) (r : ResourceNode) (tl : List ResourceNode)
    (hchain : getResourceChain st rid = r :: tl) (hmode : r.inherit_mode = .OVERRIDE) :
    specEffective st relevant rid =
      applyDeny (unionAllow (matchingAcls st relevant r.id))
        (unionDeny (matchingAcls st relevant r.id)) := by
  unfold specEffective
  rw [hchain, List.reverse_cons, List.foldl_append]
  simp [specNodeStep, hmode]

/-- C8 amended.  The round trip `suset(s, r, m, '=')` then `suget(s, r)`
returns `m & ~D` (`D` the pre-existing primary entry's deny mask, which
`suset` does not touch) — *provided* `r`'s inherit mode is OVERRIDE (under
MERGE, ancestor allow bits are unioned into the result: counterexample),
the subject is a roleless user with no strategies registered, the primary
entry is the subject's only ACL on `r`, and no ACL carries dependencies.
The deny clearing is the `IntFlag` one (`applyDeny`). -/
theorem susetSugetRoundTrip {χ : Type} (st : Store) (f : Nat) (ctx : χ) (s p : String)
    (u : User) (r : ResourceNode) (e₀ : AclEntry) (m : Nat) (par : Option ResourceNode)
    (hstrip : stripSep p = p)
    (hglob : hasGlobChar p = false)
    (hres : getParentAndSelf st p false = .ok (par, some r))
    (hrp : st.resources.lookup p = some r)
    (hrid : r.id = p)
    (hmode : r.inherit_mode = .OVERRIDE)
    (hu : st.users.lookup s = some u) (hroles : u.role_ids = []) (huid : u.id = s)
    (hprim : getPrimaryAcl st .USER s p = some e₀)
    (hl : st.acls.filter (aclKeyMatch .USER s p) = [e₀])
    (hdeps : ∀ a ∈ st.acls, a.dependencies = []) :
    suset st .USER s (.path p) m '=' false =
      ({ st with acls := setPrimaryAllow .USER s p m st.acls }, none) ∧
    suget { st with acls := setPrimaryAllow .USER s p m st.acls }
        ([] : List (Strategy χ)) (f + 1) .USER s p false ctx =
      .ok (some (applyDeny m e₀.deny_mask)) := by
  have hens : ensureResourceForSet st p false = .ok (st, par, r) := by
    unfold ensureResourceForSet
    rw [hres]
  constructor
  · unfold suset
    dsimp only
    rw [hstrip, if_neg (by simp [hglob]), hens]
    dsimp only
    unfold chmodOnNode
    rw [hrid, hprim]
    dsimp only
    unfold applyChmod
    rw [if_pos rfl]
  · set st' : Store := { st with acls := setPrimaryAllow .USER s p m st.acls } with hst'
    have hres' : getParentAndSelf st' p false = .ok (par, some r) := hres
    have hrp' : st'.resources.lookup p = some r := hrp
    have hu' : st'.users.lookup s = some u := hu
    have hrel' : relevantSubjects st' .USER s = .ok [(.USER, s)] := by
      simp [relevantSubjects, getUserE, hu', hroles, huid, expandRoles]
    have hdeps' : ∀ a ∈ st'.acls, a.dependencies = [] := by
      intro a ha
      obtain ⟨b, hb, he⟩ := setPrimaryAllow_deps .USER s p m st.acls a ha
      rw [he]
      exact hdeps b hb
    have hgu : getUserE st' s = .ok u := by simp [getUserE, hu']
    obtain ⟨tl, hchain⟩ : ∃ tl, getResourceChain st' p = r :: tl :=
      ⟨_, by rw [getResourceChain, hrp']; rfl⟩
    have hcalc := calcNoDepsSpec st' ([] : List (Strategy χ)) f .USER s r ctx
      [(.USER, s)] hdeps' hrel'
    have hspec : specEffective st' [(.USER, s)] r.id = applyDeny m e₀.deny_mask := by
      rw [hrid]
      rw [specEffective_override st' [(.USER, s)] p r tl hchain hmode]
      rw [hrid, matchingAcls_userSingleton st' s p]
      have : st'.acls.filter (aclKeyMatch .USER s p) = [{ e₀ with allow_mask := m }] :=
        filter_setPrimaryAllow .USER s p m st.acls e₀ hl
      rw [this]
      simp [unionAllow, unionDeny]
    unfold suget
    rw [hres']
    dsimp only
    unfold getEffectivePermissionsE
    rw [hrid, hrp']
    dsimp only
    unfold getEffectiveForSubject
    rw [hcalc]
    dsimp only
    rw [hgu]
    dsimp only [applyStrategies, List.foldl_nil]
    rw [hspec]

/-- C8 counterexample store: `x` is MERGE with allow 7 for `u`; the leaf
`x.y` is MERGE too. -/
def stC8 : Store :=
  { resources := [("x", { id := "x", name := "x", inherit_mode := .MERGE, type_ := "DIR" }),
                  ("x.y", { id := "x.y", name := "y", parent_id := some "x",
                            inherit_mode := .MERGE })],
    users := [("u", { id := "u", name := "u" })],
    acls := [mkAcl .USER "u" "x" 7 0] }

/-- The store after `suset(u, "x.y", 1, '=')` on `stC8`. -/
def stC8r : Store × Option ExecError := suset stC8 .USER "u" (.path "x.y") 1 '=' false

/-- C8 counterexample.  With no deny anywhere, the claim says the round
trip returns exactly `m = 1`; but on a MERGE leaf the ancestor's allow bits
are unioned in and `suget` returns 7 — the round trip is *not* independent
of `r`'s inherit mode and of ACLs on `r`'s ancestors. -/
theorem roundTripLeaksAncestorBits_cx :
    stC8r.2 = none ∧
    suget stC8r.1 ([] : List (Strategy Unit)) 5 .USER "u" "x.y" false () = .ok (some 7) ∧
    applyDeny 1 0 = 1 :=
  ⟨rfl, rfl, rfl⟩

/-- C8 witness store: OVERRIDE leaf `x.y` with a pre-existing primary
`allow=7, deny=2` for `u`; ancestor `x` grants 7. -/
def stC8w : Store :=
  { resources := [("x", { id := "x", name := "x", inherit_mode := .MERGE, type_ := "DIR" }),
                  ("x.y", { id := "x.y", name := "y", parent_id := some "x",
                            inherit_mode := .OVERRIDE })],
    users := [("u", { id := "u", name := "u" })],
    acls := [mkAcl .USER "u" "x" 7 0, mkAcl .USER "u" "x.y" 7 2] }

theorem susetSugetRoundTrip_witness :
    suset stC8w .USER "u" (.path "x.y") 3 '=' false =
      ({ stC8w with acls := setPrimaryAllow .USER "u" "x.y" 3 stC8w.acls }, none) ∧
    suget { stC8w with acls := setPrimaryAllow .USER "u" "x.y" 3 stC8w.acls }
        ([] : List (Strategy Unit)) 3 .USER "u" "x.y" false () =
      .ok (some (applyDeny 3 (mkAcl .USER "u" "x.y" 7 2).deny_mask)) :=
  susetSugetRoundTrip stC8w 2 () "u" "x.y" { id := "u", name := "u" }
    { id := "x.y", name := "y", parent_id := some "x", inherit_mode := .OVERRIDE }
    (mkAcl .USER "u" "x.y" 7 2) 3
    (some { id := "x", name := "x", inherit_mode := .MERGE, type_ := "DIR" })
    rfl rfl rfl rfl rfl rfl rfl rfl rfl rfl rfl (by decide)

/-! ## C9: the parse grammar -/

/-- The mask of a `[vmarwx]+` flags run. -/
def lettersMask (fl : List Char) : Nat := fl.foldl (fun a c => a ||| letterBit c) 0

/-- The flags production of the grammar the source accepts in multi-character
expressions: one character `[*0-7]`, or a non-empty `[vmarwx]+` run (note:
no `-`, unlike the claim's grammar), with the mask the source computes. -/
def AmendedFlags (fl : List Char) (m : Nat) : Prop :=
  (∃ c, fl = [c] ∧
    ((c = '*' ∧ m = 7) ∨
     ('0' ≤ c ∧ c ≤ '7' ∧ m = c.toNat - 48) ∨
     (isVmarwx c = true ∧ m = letterBit c))) ∨
  (fl ≠ [] ∧ (∀ c ∈ fl, isVmarwx c = true) ∧ m = lettersMask fl)

/-- The target production: absent (allow), `a` (allow) or `d` (deny). -/
def TargetProd (t : List Char) (deny : Bool) : Prop :=
  (t = [] ∧ deny = false) ∨ (t = ['a'] ∧ deny = false) ∨ (t = ['d'] ∧ deny = true)

/-- The op production: absent (`=`), or one of `= + -`. -/
def OpProd (o : List Char) (op : Char) : Prop :=
  (o = [] ∧ op = '=') ∨ (∃ c, o = [c] ∧ isOpChar c = true ∧ op = c)

/-- The grammar of multi-character expressions as the source accepts them:
some decomposition `target ++ op ++ flags` with the productions above. -/
def AmendedExpr (cs : List Char) (m : Nat) (op : Char) (deny : Bool) : Prop :=
  ∃ t o fl, cs = t ++ o ++ fl ∧ TargetProd t deny ∧ OpProd o op ∧ AmendedFlags fl m

theorem flagsVal_sound (fl : List Char) (m : Nat) (h : flagsVal fl = some m) :
    AmendedFlags fl m := by
  match fl with
  | [] => simp [flagsVal] at h
  | [c] =>
    rw [flagsVal] at h
    by_cases h1 : c = '*'
    · rw [if_pos h1] at h
      exact .inl ⟨c, rfl, .inl ⟨h1, by simpa using h.symm⟩⟩
    · rw [if_neg h1] at h
      by_cases h2 : '0' ≤ c ∧ c ≤ '7'
      · rw [if_pos h2] at h
        exact .inl ⟨c, rfl, .inr (.inl ⟨h2.1, h2.2, by simpa using h.symm⟩)⟩
      · rw [if_neg h2] at h
        by_cases h3 : isVmarwx c = true
        · rw [if_pos h3] at h
          exact .inl ⟨c, rfl, .inr (.inr ⟨h3, by simpa using h.symm⟩)⟩
        · rw [if_neg h3] at h
          simp at h
  | c1 :: c2 :: rest =>
    rw [show flagsVal (c1 :: c2 :: rest) =
        (if (c1 :: c2 :: rest).all isVmarwx then
          some ((c1 :: c2 :: rest).foldl (fun a c => a ||| letterBit c) 0)
         else none) from rfl] at h
    by_cases hall : (c1 :: c2 :: rest).all isVmarwx = true
    · rw [if_pos hall] at h
      refine .inr ⟨by simp, fun c hc => List.all_eq_true.mp hall c hc,
        by simpa [lettersMask] using h.symm⟩
    · rw [if_neg hall] at h
      simp at h

theorem matchNoTarget_sound (cs : List Char) (deny : Bool) (op : Char) (m : Nat)
    (h : matchNoTarget cs = some (deny, op, m)) : AmendedExpr cs m op deny := by
  match cs with
  | [] => simp [matchNoTarget] at h
  | c1 :: rest1 =>
    rw [matchNoTarget] at h
    by_cases hop : isOpChar c1 = true
    · rw [if_pos hop] at h
      cases hf : flagsVal rest1 with
      | some m1 =>
        rw [hf] at h
        simp only [Option.some.injEq, Prod.mk.injEq] at h
        obtain ⟨h1, h2, h3⟩ := h
        exact ⟨[], [c1], rest1, by simp, .inl ⟨rfl, h1.symm⟩,
          .inr ⟨c1, rfl, hop, h2.symm⟩, h3 ▸ flagsVal_sound rest1 m1 hf⟩
      | none =>
        rw [hf] at h
        cases hg : flagsVal (c1 :: rest1) with
        | some m2 =>
          rw [hg] at h
          simp only [Option.some.injEq, Prod.mk.injEq] at h
          obtain ⟨h1, h2, h3⟩ := h
          exact ⟨[], [], c1 :: rest1, by simp, .inl ⟨rfl, h1.symm⟩,
            .inl ⟨rfl, h2.symm⟩, h3 ▸ flagsVal_sound _ m2 hg⟩
        | none => rw [hg] at h; simp at h
    · rw [if_neg hop] at h
      cases hg : flagsVal (c1 :: rest1) with
      | some m2 =>
        rw [hg] at h
        simp only [Option.some.injEq, Prod.mk.injEq] at h
        obtain ⟨h1, h2, h3⟩ := h
        exact ⟨[], [], c1 :: rest1, by simp, .inl ⟨rfl, h1.symm⟩,
          .inl ⟨rfl, h2.symm⟩, h3 ▸ flagsVal_sound _ m2 hg⟩
      | none => rw [hg] at h; simp at h

theorem matchExpr_sound (cs : List Char) (deny : Bool) (op : Char) (m : Nat)
    (h : matchExpr cs = some (deny, op, m)) : AmendedExpr cs m op deny := by
  match cs with
  | [] => simp [matchExpr] at h
  | c1 :: rest1 =>
    rw [matchExpr] at h
    by_cases had : c1 = 'a' ∨ c1 = 'd'
    · rw [if_pos had] at h
      have htp : TargetProd [c1] (c1 == 'd') := by
        rcases had with h1 | h1
        · subst h1; exact .inr (.inl ⟨rfl, by decide⟩)
        · subst h1; exact .inr (.inr ⟨rfl, by decide⟩)
      match rest1 with
      | c2 :: rest2 =>
        dsimp only at h
        by_cases hop : isOpChar c2 = true
        · rw [if_pos hop] at h
          cases hf : flagsVal rest2 with
          | some m1 =>
            rw [hf] at h
            simp only [Option.some.injEq, Prod.mk.injEq] at h
            obtain ⟨h1, h2, h3⟩ := h
            exact ⟨[c1], [c2], rest2, by simp, h1 ▸ htp,
              .inr ⟨c2, rfl, hop, h2.symm⟩, h3 ▸ flagsVal_sound _ m1 hf⟩
          | none =>
            rw [hf] at h
            cases hg : flagsVal (c2 :: rest2) with
            | some m2 =>
              rw [hg] at h
              simp only [Option.some.injEq, Prod.mk.injEq] at h
              obtain ⟨h1, h2, h3⟩ := h
              exact ⟨[c1], [], c2 :: rest2, by simp, h1 ▸ htp,
                .inl ⟨rfl, h2.symm⟩, h3 ▸ flagsVal_sound _ m2 hg⟩
            | none =>
              rw [hg] at h
              exact matchNoTarget_sound _ _ _ _ h
        · rw [if_neg hop] at h
          cases hg : flagsVal (c2 :: rest2) with
          | some m2 =>
            rw [hg] at h
            simp only [Option.some.injEq, Prod.mk.injEq] at h
            obtain ⟨h1, h2, h3⟩ := h
            exact ⟨[c1], [], c2 :: rest2, by simp, h1 ▸ htp,
              .inl ⟨rfl, h2.symm⟩, h3 ▸ flagsVal_sound _ m2 hg⟩
          | none =>
            rw [hg] at h
            exact matchNoTarget_sound _ _ _ _ h
      | [] =>
        dsimp only at h
        exact matchNoTarget_sound _ _ _ _ h
    · rw [if_neg had] at h
      exact matchNoTarget_sound _ _ _ _ h

/-- The character classes that can appear inside a flags production. -/
def flagChar (c : Char) : Prop := c = '*' ∨ ('0' ≤ c ∧ c ≤ '7') ∨ isVmarwx c = true

theorem amendedFlags_ne_nil {fl : List Char} {m : Nat} (h : AmendedFlags fl m) : fl ≠ [] := by
  rcases h with ⟨c, rfl, _⟩ | ⟨hne, _, _⟩
  · simp
  · exact hne

theorem amendedFlags_chars {fl : List Char} {m : Nat} (h : AmendedFlags fl m) :
    ∀ c ∈ fl, flagChar c := by
  rcases h with ⟨c, rfl, hc⟩ | ⟨_, hall, _⟩
  · intro d hd
    rw [List.mem_singleton] at hd
    subst hd
    rcases hc with ⟨h1, _⟩ | ⟨h1, h2, _⟩ | ⟨h1, _⟩
    · exact .inl h1
    · exact .inr (.inl ⟨h1, h2⟩)
    · exact .inr (.inr h1)
  · exact fun c hc => .inr (.inr (hall c hc))

theorem flagChar_not_op {c : Char} (h : flagChar c) : isOpChar c = false := by
  rcases h with h | h | h
  · subst h; rfl
  · cases hq : isOpChar c
    · rfl
    · exfalso
      simp only [isOpChar, decide_eq_true_eq, Bool.decide_or, Bool.or_eq_true,
        decide_eq_true_eq] at hq
      rcases hq with h1 | h1 | h1 <;> subst h1 <;> revert h <;> decide
  · cases hq : isOpChar c
    · rfl
    · exfalso
      simp only [isOpChar, decide_eq_true_eq, Bool.decide_or, Bool.or_eq_true,
        decide_eq_true_eq] at hq
      rcases hq with h1 | h1 | h1 <;> subst h1 <;> revert h <;> decide

theorem flagChar_ne_d {c : Char} (h : flagChar c) : c ≠ 'd' := by
  intro hc
  subst hc
  rcases h with h | h | h <;> revert h <;> decide

theorem opChar_not_ad {c : Char} (h : isOpChar c = true) : ¬(c = 'a' ∨ c = 'd') := by
  simp only [isOpChar, Bool.decide_or, Bool.or_eq_true, decide_eq_true_eq] at h
  rcases h with h | h | h <;> subst h <;> decide

theorem flagsVal_of_amended {fl : List Char} {m : Nat} (h : AmendedFlags fl m) :
    (flagsVal fl).isSome = true := by
  rcases h with ⟨c, rfl, hc⟩ | ⟨hne, hall, _⟩
  · rw [flagsVal]
    by_cases h1 : c = '*'
    · rw [if_pos h1]; rfl
    · rw [if_neg h1]
      by_cases h2 : '0' ≤ c ∧ c ≤ '7'
      · rw [if_pos h2]; rfl
      · rw [if_neg h2]
        rcases hc with ⟨hs, _⟩ | ⟨ha, hb, _⟩ | ⟨hv, _⟩
        · exact absurd hs h1
        · exact absurd ⟨ha, hb⟩ h2
        · rw [if_pos hv]; rfl
  · match fl, hne with
    | [c], _ =>
      rw [flagsVal]
      by_cases h1 : c = '*'
      · rw [if_pos h1]; rfl
      · rw [if_neg h1]
        by_cases h2 : '0' ≤ c ∧ c ≤ '7'
        · rw [if_pos h2]; rfl
        · rw [if_neg h2, if_pos (hall c (List.mem_singleton_self c))]; rfl
    | c1 :: c2 :: rest, _ =>
      rw [show flagsVal (c1 :: c2 :: rest) =
          (if (c1 :: c2 :: rest).all isVmarwx then
            some ((c1 :: c2 :: rest).foldl (fun a c => a ||| letterBit c) 0)
           else none) from rfl]
      rw [if_pos (List.all_eq_true.mpr hall)]
      rfl

theorem matchExpr_complete (cs : List Char) (m : Nat) (op : Char) (deny : Bool)
    (h : AmendedExpr cs m op deny) : (matchExpr cs).isSome = true := by
  obtain ⟨t, o, fl, rfl, ht, ho, hfl⟩ := h
  have hflS := flagsVal_of_amended hfl
  have hchars := amendedFlags_chars hfl
  have hne := amendedFlags_ne_nil hfl
  obtain ⟨mf, hmf⟩ := Option.isSome_iff_exists.mp hflS
  obtain ⟨c1, rest1, rfl⟩ : ∃ c r, fl = c :: r := by
    cases fl with
    | nil => exact absurd rfl hne
    | cons c r => exact ⟨c, r, rfl⟩
  rcases ht with ⟨rfl, -⟩ | ⟨rfl, -⟩ | ⟨rfl, -⟩ <;>
    rcases ho with ⟨rfl, -⟩ | ⟨oc, rfl, hoc, -⟩
  · -- no target, no op: the whole expression is the flags group
    simp only [List.nil_append]
    rw [matchExpr]
    by_cases had : c1 = 'a' ∨ c1 = 'd'
    · have hc1 : c1 = 'a' := by
        rcases had with h1 | h1
        · exact h1
        · exact absurd h1 (flagChar_ne_d (hchars c1 (List.mem_cons_self _ _)))
      rw [if_pos had]
      subst hc1
      match rest1, hmf, hchars, hfl with
      | [], _, _, _ => exact rfl
      | c2 :: rest2, hmf, hchars, hfl =>
        dsimp only
        have hop2 : isOpChar c2 = false :=
          flagChar_not_op (hchars c2 (by simp))
        rw [if_neg (by simp [hop2])]
        have hall : ∀ c ∈ ('a' :: c2 :: rest2), isVmarwx c = true := by
          rcases hfl with ⟨c, hfl, _⟩ | ⟨_, hall, _⟩
          · simp at hfl
          · exact hall
        have hA2 : AmendedFlags (c2 :: rest2) (lettersMask (c2 :: rest2)) :=
          .inr ⟨by simp, fun c hc => hall c (List.mem_cons_of_mem _ hc), rfl⟩
        obtain ⟨m2, hm2⟩ := Option.isSome_iff_exists.mp (flagsVal_of_amended hA2)
        rw [hm2]
        rfl
    · rw [if_neg had]
      have hop1 : isOpChar c1 = false :=
        flagChar_not_op (hchars c1 (List.mem_cons_self _ _))
      rw [matchNoTarget, if_neg (by simp [hop1]), hmf]
      rfl
  · -- no target, an op character, then flags
    simp only [List.nil_append, List.cons_append]
    rw [matchExpr, if_neg (opChar_not_ad hoc), matchNoTarget, if_pos hoc, hmf]
    rfl
  · -- target 'a', no op
    simp only [List.cons_append, List.nil_append]
    rw [matchExpr, if_pos (.inl rfl)]
    dsimp only
    have hop2 : isOpChar c1 = false :=
      flagChar_not_op (hchars c1 (List.mem_cons_self _ _))
    rw [if_neg (by simp [hop2]), hmf]
    rfl
  · -- target 'a', an op character, then flags
    simp only [List.cons_append, List.nil_append]
    rw [matchExpr, if_pos (.inl rfl)]
    dsimp only
    rw [if_pos hoc, hmf]
    rfl
  · -- target 'd', no op
    simp only [List.cons_append, List.nil_append]
    rw [matchExpr, if_pos (.inr rfl)]
    dsimp only
    have hop2 : isOpChar c1 = false :=
      flagChar_not_op (hchars c1 (List.mem_cons_self _ _))
    rw [if_neg (by simp [hop2]), hmf]
    rfl
  · -- target 'd', an op character, then flags
    simp only [List.cons_append, List.nil_append]
    rw [matchExpr, if_pos (.inr rfl)]
    dsimp only
    rw [if_pos hoc, hmf]
    rfl

/-- C9 counterexample.  The claim's grammar allows `-` inside a glyph flags
sequence (`[vmarwx-]+`), so `"v-a"` should parse to `(VISIT|AVAILABLE, '=',
allow)`; the source's regex class is `[vmarwx]+` without `-`, and
`Permission.parse("v-a")` raises. -/
theorem parseRejectsDashFlags_cx :
    specParse "v-a" = some (5, '=', false) ∧
    parsePerm "v-a" = .error "Invalid permission expression" :=
  ⟨rfl, rfl⟩

/-- C9 amended.  After stripping/lower-casing: the empty expression errors;
a single character is accepted iff it is *any* decimal digit (`Permission`
is a KEEP-boundary `IntFlag`, so `8`/`9` build pseudo-members) or one of
`v m a r w x * -` (via `Permission._missing_`); a longer expression is
accepted iff it decomposes as `[ad]? [=+-]? ([*0-7] | [vmarwx]+)` — the
claim's extra `-` inside flags is not accepted — and the returned triple is
`(mask, op defaulting '=', deny iff target 'd')` with the mask computed
from the flags text. -/
theorem parsePermCharacterisation (s : String) :
    (normalizeExpr s = [] → parsePerm s = .error "Empty permission expression") ∧
    (∀ c, normalizeExpr s = [c] →
      ((c.isDigit = true → parsePerm s = .ok (c.toNat - 48, '=', false)) ∧
       (∀ b, c.isDigit = false → charBit c = some b → parsePerm s = .ok (b, '=', false)) ∧
       (c.isDigit = false → charBit c = none →
         parsePerm s = .error "Invalid permission character"))) ∧
    (∀ c1 c2 rest, normalizeExpr s = c1 :: c2 :: rest →
      ((∀ m op d, parsePerm s = .ok (m, op, d) → AmendedExpr (c1 :: c2 :: rest) m op d) ∧
       (∀ m op d, AmendedExpr (c1 :: c2 :: rest) m op d → ∃ r, parsePerm s = .ok r))) := by
  refine ⟨?_, ?_, ?_⟩
  · intro hn
    unfold parsePerm
    rw [hn]
  · intro c hn
    unfold parsePerm
    rw [hn]
    dsimp only
    refine ⟨?_, ?_, ?_⟩
    · intro hd
      rw [if_pos hd]
    · intro b hd hc
      rw [if_neg (by simp [hd])]
      rw [strMask, hc]
      simp [strMask, Except.map, Nat.or_zero]
    · intro hd hc
      rw [if_neg (by simp [hd])]
      rw [strMask, hc]
  · intro c1 c2 rest hn
    constructor
    · intro m op d h
      unfold parsePerm at h
      rw [hn] at h
      dsimp only at h
      cases hm : matchExpr (c1 :: c2 :: rest) with
      | none => rw [hm] at h; simp at h
      | some r =>
        obtain ⟨d', o', m'⟩ := r
        rw [hm] at h
        simp only [Except.ok.injEq, Prod.mk.injEq] at h
        obtain ⟨h1, h2, h3⟩ := h
        rw [← h1, ← h2, ← h3]
        exact matchExpr_sound _ _ _ _ hm
    · intro m op d hA
      obtain ⟨⟨d', o', m'⟩, hm⟩ :=
        Option.isSome_iff_exists.mp (matchExpr_complete _ m op d hA)
      refine ⟨(m', o', d'), ?_⟩
      unfold parsePerm
      rw [hn]
      dsimp only
      rw [hm]

theorem parsePermCharacterisation_witness :
    AmendedExpr ('d' :: '+' :: 'v' :: 'm' :: []) 6 '+' true :=
  ((parsePermCharacterisation "d+vm").2.2 'd' '+' ['v', 'm'] rfl).1 6 '+' true rfl

/-! ## C10: `suset` and `set` write only the allow side -/

/-- The frame relation of C10: the new ACL list extends the old one; at
every existing position the deny mask and the dependency list are
unchanged (only `allow_mask` may differ); every appended entry has
`deny_mask = 0` and no dependencies. -/
def aclFramePreserved (old new : List AclEntry) : Prop :=
  old.length ≤ new.length ∧
  (∀ (i : Nat) (a b : AclEntry), old[i]? = some a → new[i]? = some b →
    b.deny_mask = a.deny_mask ∧ b.dependencies = a.dependencies) ∧
  (∀ (i : Nat) (b : AclEntry), old.length ≤ i → new[i]? = some b →
    b.deny_mask = 0 ∧ b.dependencies = [])

theorem frame_refl (l : List AclEntry) : aclFramePreserved l l := by
  refine ⟨le_refl _, ?_, ?_⟩
  · intro i a b h1 h2
    rw [h1] at h2
    simp only [Option.some.injEq] at h2
    subst h2
    exact ⟨rfl, rfl⟩
  · intro i b hle h
    rw [List.getElem?_eq_none hle] at h
    simp at h

theorem frame_trans {l₁ l₂ l₃ : List AclEntry} (h12 : aclFramePreserved l₁ l₂)
    (h23 : aclFramePreserved l₂ l₃) : aclFramePreserved l₁ l₃ := by
  obtain ⟨hlen12, hp12, hz12⟩ := h12
  obtain ⟨hlen23, hp23, hz23⟩ := h23
  refine ⟨le_trans hlen12 hlen23, ?_, ?_⟩
  · intro i a b h1 h3
    have hi : i < l₁.length := by
      by_contra hq
      rw [List.getElem?_eq_none (le_of_not_lt hq)] at h1
      simp at h1
    have hi2 : i < l₂.length := lt_of_lt_of_le hi hlen12
    have h2 : l₂[i]? = some l₂[i] := List.getElem?_eq_getElem hi2
    have ha := hp12 i a _ h1 h2
    have hb := hp23 i _ b h2 h3
    exact ⟨hb.1.trans ha.1, hb.2.trans ha.2⟩
  · intro i b hle h3
    by_cases hi2 : i < l₂.length
    · have h2 : l₂[i]? = some l₂[i] := List.getElem?_eq_getElem hi2
      have hz := hz12 i _ hle h2
      have hb := hp23 i _ b h2 h3
      exact ⟨hb.1.trans hz.1, hb.2.trans hz.2⟩
    · exact hz23 i b (le_of_not_lt hi2) h3

theorem frame_append (l tail : List AclEntry)
    (hz : ∀ b ∈ tail, b.deny_mask = 0 ∧ b.dependencies = []) :
    aclFramePreserved l (l ++ tail) := by
  refine ⟨by simp, ?_, ?_⟩
  · intro i a b h1 h2
    have hi : i < l.length := by
      by_contra hq
      rw [List.getElem?_eq_none (le_of_not_lt hq)] at h1
      simp at h1
    rw [List.getElem?_append, if_pos hi, h1] at h2
    simp only [Option.some.injEq] at h2
    subst h2
    exact ⟨rfl, rfl⟩
  · intro i b hle h2
    rw [List.getElem?_append_right hle] at h2
    exact hz b (List.getElem?_mem h2)

theorem frame_cons (a b : AclEntry) (l₁ l₂ : List AclEntry)
    (hd : b.deny_mask = a.deny_mask) (hdep : b.dependencies = a.dependencies)
    (h : aclFramePreserved l₁ l₂) : aclFramePreserved (a :: l₁) (b :: l₂) := by
  obtain ⟨hlen, hp, hz⟩ := h
  refine ⟨by simpa using hlen, ?_, ?_⟩
  · intro i x y h1 h2
    cases i with
    | zero =>
      simp only [List.getElem?_cons_zero, Option.some.injEq] at h1 h2
      subst h1
      subst h2
      exact ⟨hd, hdep⟩
    | succ j =>
      simp only [List.getElem?_cons_succ] at h1 h2
      exact hp j x y h1 h2
  · intro i y hle h2
    cases i with
    | zero => simp at hle
    | succ j =>
      simp only [List.getElem?_cons_succ] at h2
      exact hz j y (by simpa using hle) h2

theorem setPrimaryAllow_frame (sty : SubjectType) (sid rid : String) (m : Nat) :
    ∀ acls : List AclEntry, aclFramePreserved acls (setPrimaryAllow sty sid rid m acls) := by
  intro acls
  induction acls with
  | nil => exact frame_refl []
  | cons a rest ih =>
    rw [setPrimaryAllow]
    split
    · exact frame_cons a _ rest rest rfl rfl (frame_refl rest)
    · exact frame_cons a a rest _ rfl rfl ih

theorem assign_frame (st : Store) (sty : SubjectType) (sid : String)
    (sel : ResourceSel) (allow : Nat) (st' : Store)
    (h : assign st sty sid sel allow 0 = .ok st') :
    aclFramePreserved st.acls st'.acls := by
  cases sel with
  | pred f =>
    unfold assign at h
    simp only [Except.ok.injEq] at h
    rw [← h]
    obtain ⟨tail, h1, hz⟩ := assignMatched_append sty sid allow 0 (matchResources st f) st
    rw [h1]
    exact frame_append _ _ hz
  | path p =>
    unfold assign at h
    dsimp only at h
    split at h
    · simp only [Except.ok.injEq] at h
      rw [← h]
      obtain ⟨tail, h1, hz⟩ :=
        assignMatched_append sty sid allow 0 (globResources st (stripSep p)) st
      rw [h1]
      exact frame_append _ _ hz
    · cases hd : define st (stripSep p) none "GENERIC" with
      | error e => rw [hd] at h; simp at h
      | ok pr =>
        obtain ⟨std, res⟩ := pr
        rw [hd] at h
        simp only [Except.ok.injEq] at h
        rw [← h]
        rw [show (addAcl std (mkAcl sty sid res.id allow 0)).acls
            = std.acls ++ [mkAcl sty sid res.id allow 0] from rfl]
        rw [define_acls st (stripSep p) none "GENERIC" std res hd]
        exact frame_append _ _ (by intro b hb; simp at hb; subst hb; exact ⟨rfl, rfl⟩)

theorem chmodOnNode_frame (st : Store) (sty : SubjectType) (sid : String)
    (node : ResourceNode) (mask : Nat) (mode : Char) :
    aclFramePreserved st.acls (chmodOnNode st sty sid node mask mode).1.acls := by
  unfold chmodOnNode
  cases hpa : getPrimaryAcl st sty sid node.id with
  | some a =>
    dsimp only
    cases happ : applyChmod a.allow_mask mask mode with
    | error e => exact frame_refl _
    | ok nm => exact setPrimaryAllow_frame sty sid node.id nm st.acls
  | none =>
    dsimp only
    cases happ : applyChmod 0 mask mode with
    | error e => exact frame_refl _
    | ok nm =>
      dsimp only
      cases has : assign st sty sid (.path node.id) nm 0 with
      | error e => exact frame_refl _
      | ok st₂ =>
        dsimp only
        exact assign_frame st sty sid (.path node.id) nm st₂ has

theorem susetMatched_frame (sty : SubjectType) (sid : String) (mask : Nat)
    (mode : Char) (missingOk : Bool) :
    ∀ (nodes : List ResourceNode) (st : Store),
      aclFramePreserved st.acls (susetMatched sty sid mask mode missingOk st nodes).1.acls := by
  intro nodes
  induction nodes with
  | nil => intro st; exact frame_refl _
  | cons n rest ih =>
    intro st
    rw [susetMatched]
    split
    · split
      · exact frame_refl _
      · exact ih st
    · have hframe := chmodOnNode_frame st sty sid n mask mode
      cases hcm : chmodOnNode st sty sid n mask mode with
      | mk st₂ err =>
        rw [hcm] at hframe
        cases err with
        | some e => exact hframe
        | none => exact frame_trans hframe (ih st₂)

theorem suset_frame (st : Store) (sty : SubjectType) (sid : String)
    (sel : ResourceSel) (mask : Nat) (mode : Char) (missingOk : Bool) :
    aclFramePreserved st.acls (suset st sty sid sel mask mode missingOk).1.acls := by
  cases sel with
  | pred f => exact susetMatched_frame sty sid mask mode missingOk (matchResources st f) st
  | path p =>
    unfold suset
    dsimp only
    split
    · exact susetMatched_frame sty sid mask mode missingOk _ st
    · cases hen : ensureResourceForSet st (stripSep p) missingOk with
      | error e => exact frame_refl _
      | ok pr =>
        obtain ⟨st₂, par, node⟩ := pr
        dsimp only
        have h2 := chmodOnNode_frame st₂ sty sid node mask mode
        rw [ensure_acls st (stripSep p) missingOk st₂ par node hen] at h2
        exact h2

theorem setOnNode_frame {χ : Type} (strats : List (Strategy χ)) (fuel : Nat)
    (executor : String) (tsty : SubjectType) (tsid : String) (mask : Nat) (mode : Char)
    (ctx : χ) (st : Store) (node : ResourceNode) :
    aclFramePreserved st.acls
      (setOnNode strats fuel executor tsty tsid mask mode ctx st node).1.acls := by
  unfold setOnNode
  cases hev : getEffectivePermissionsE st strats fuel executor node.id ctx with
  | error e => exact frame_refl _
  | ok sm =>
    dsimp only
    split
    · exact frame_refl _
    · exact chmodOnNode_frame st tsty tsid node mask mode

theorem setMatched_frame {χ : Type} (strats : List (Strategy χ)) (fuel : Nat)
    (executor : String) (tsty : SubjectType) (tsid : String) (mask : Nat) (mode : Char)
    (missingOk : Bool) (ctx : χ) :
    ∀ (nodes : List ResourceNode) (st : Store),
      aclFramePreserved st.acls
        (setMatched strats fuel executor tsty tsid mask mode missingOk ctx st nodes).1.acls := by
  intro nodes
  induction nodes with
  | nil => intro st; exact frame_refl _
  | cons n rest ih =>
    intro st
    rw [setMatched]
    split
    · split
      · exact frame_refl _
      · exact ih st
    · cases hgate : (match
          (match n.parent_id with
           | none => none
           | some pid => if pid = "" then none else st.resources.lookup pid) with
        | none => (st, (none : Option ExecError))
        | some par =>
          match getEffectivePermissionsE st strats fuel executor par.id ctx with
          | .error e => (st, some (.evalFail e))
          | .ok pm =>
            if pm &&& (VISIT ||| MODIFY ||| AVAILABLE) ≠ VISIT ||| MODIFY ||| AVAILABLE then
              (st, some .permissionDenied)
            else (st, none)) with
      | mk stg errg =>
        have hstg : stg = st := by
          revert hgate
          split
          · intro h; cases h; rfl
          · split
            · intro h; cases h; rfl
            · split
              · intro h; cases h; rfl
              · intro h; cases h; rfl
        subst hstg
        cases errg with
        | some e => exact frame_refl _
        | none =>
          dsimp only
          have hso := setOnNode_frame strats fuel executor tsty tsid mask mode ctx stg n
          cases hsn : setOnNode strats fuel executor tsty tsid mask mode ctx stg n with
          | mk st₂ err₂ =>
            rw [hsn] at hso
            cases err₂ with
            | some e => exact hso
            | none => exact frame_trans hso (ih st₂)

theorem setP_frame {χ : Type} (st : Store) (strats : List (Strategy χ)) (fuel : Nat)
    (executor : String) (tsty : SubjectType) (tsid : String) (sel : ResourceSel)
    (mask : Nat) (mode : Char) (missingOk : Bool) (ctx : χ) :
    aclFramePreserved st.acls
      (setP st strats fuel executor tsty tsid sel mask mode missingOk ctx).1.acls := by
  cases sel with
  | pred f =>
    exact setMatched_frame strats fuel executor tsty tsid mask mode missingOk ctx
      (matchResources st f) st
  | path p =>
    unfold setP
    dsimp only
    split
    · exact setMatched_frame strats fuel executor tsty tsid mask mode missingOk ctx _ st
    · cases hen : ensureResourceForSet st (stripSep p) missingOk with
      | error e => exact frame_refl _
      | ok pr =>
        obtain ⟨st₂, par, node⟩ := pr
        dsimp only
        have heq := ensure_acls st (stripSep p) missingOk st₂ par node hen
        split
        · exact by rw [← heq] at *; exact frame_refl _
        · have h2 := setOnNode_frame strats fuel executor tsty tsid mask mode ctx st₂ node
          rw [heq] at h2
          exact h2

/-- C10.  Every `suset` and every `set` call — single-path or pattern form,
creating or updating — writes only the `allow_mask` side of the ACL table:
each pre-existing entry keeps its deny mask and its dependency list
unchanged (position by position), and every newly created entry has
`deny_mask = 0` and no dependencies. -/
theorem susetSetWriteOnlyAllow {χ : Type} (st : Store) (sty : SubjectType) (sid : String)
    (sel : ResourceSel) (mask : Nat) (mode : Char) (missingOk : Bool)
    (strats : List (Strategy χ)) (fuel : Nat) (executor : String)
    (tsty : SubjectType) (tsid : String) (ctx : χ) :
    aclFramePreserved st.acls (suset st sty sid sel mask mode missingOk).1.acls ∧
    aclFramePreserved st.acls
      (setP st strats fuel executor tsty tsid sel mask mode missingOk ctx).1.acls :=
  ⟨suset_frame st sty sid sel mask mode missingOk,
   setP_frame st strats fuel executor tsty tsid sel mask mode missingOk ctx⟩

end Cithun
